import Mathlib

set_option autoImplicit false

/-!
Shallow embedding of the ucpliberty crawl pipeline and player cache
(src/scraper/players_cache.py, src/scraper/player_scraper.py,
src/player_scraper.py), together with proofs about its documented
behaviour.

Modelling conventions:
- JSON values decoded by json.loads are modelled by the inductive JVal
  (numbers restricted to integers, which covers every payload the
  claims are about).
- Python dictionaries are modelled as insertion-ordered association
  lists (PyDict): assignment updates an existing key in place and
  appends a fresh key at the end, exactly like CPython dicts.
- Python dict keys must be hashable; unhashable keys (lists, dicts)
  raise TypeError, modelled by the Except error case.  Keys compare
  structurally; the CPython cross-type unification of True, 1 and 1.0
  is not modelled (no claim depends on it).
- Exceptions are modelled by Except Unit; the update_player wrapper
  catches them, so the state in which the exception fired is the state
  the call leaves behind.
-/

namespace UcpLiberty

/-- A decoded JSON value, as returned by json.loads. -/
inductive JVal where
  | jnull
  | jbool (b : Bool)
  | jnum (n : Int)
  | jstr (s : String)
  | jarr (elems : List JVal)
  | jobj (fields : List (String × JVal))
deriving Repr

/-- A hashable JSON scalar: the only values Python accepts as dict keys
among JSON-decoded data (lists and objects are unhashable). -/
inductive JScalar where
  | snull
  | sbool (b : Bool)
  | snum (n : Int)
  | sstr (s : String)
deriving DecidableEq, Repr

/-- A Python dict: insertion-ordered association list with unique keys. -/
abbrev PyDict (K V : Type) := List (K × V)

/-- Python d.get(k): value at the first occurrence of the key. -/
def dfind {K V : Type} [DecidableEq K] (d : PyDict K V) (k : K) : Option V :=
  (d.find? (fun p => decide (p.1 = k))).map Prod.snd

/-- Python d[k] = v: replace an existing entry in place, else append. -/
def dinsert {K V : Type} [DecidableEq K] (k : K) (v : V) : PyDict K V → PyDict K V
  | [] => [(k, v)]
  | (k0, v0) :: rest => if k0 = k then (k, v) :: rest else (k0, v0) :: dinsert k v rest

/-- Python d.pop(k, None): drop the entry for the key if present. -/
def dpop {K V : Type} [DecidableEq K] (k : K) : PyDict K V → PyDict K V
  | [] => []
  | (k0, v0) :: rest => if k0 = k then rest else (k0, v0) :: dpop k rest

@[simp] theorem dfind_nil {K V : Type} [DecidableEq K] (k : K) :
    dfind ([] : PyDict K V) k = none := rfl

@[simp] theorem dfind_cons {K V : Type} [DecidableEq K] (k0 k : K) (v0 : V)
    (rest : PyDict K V) :
    dfind ((k0, v0) :: rest) k = if k0 = k then some v0 else dfind rest k := by
  by_cases h : k0 = k <;> simp [dfind, List.find?, h]

theorem dfind_dinsert_self {K V : Type} [DecidableEq K] (d : PyDict K V) (k : K) (v : V) :
    dfind (dinsert k v d) k = some v := by
  induction d with
  | nil => simp [dinsert]
  | cons p rest ih =>
    obtain ⟨k0, v0⟩ := p
    by_cases h : k0 = k <;> simp [dinsert, h, ih]

theorem dfind_dinsert_ne {K V : Type} [DecidableEq K] (d : PyDict K V) (k k1 : K) (v : V)
    (hne : k1 ≠ k) : dfind (dinsert k v d) k1 = dfind d k1 := by
  have hkk1 : ¬ (k = k1) := fun h => hne h.symm
  induction d with
  | nil => simp [dinsert, hkk1]
  | cons p rest ih =>
    obtain ⟨k0, v0⟩ := p
    by_cases h : k0 = k
    · subst h
      simp [dinsert, hkk1]
    · simp [dinsert, h, ih]

theorem dfind_dinsert {K V : Type} [DecidableEq K] (d : PyDict K V) (k k1 : K) (v : V) :
    dfind (dinsert k v d) k1 = if k = k1 then some v else dfind d k1 := by
  by_cases h : k = k1
  · subst h; simp [dfind_dinsert_self]
  · simp [h, dfind_dinsert_ne d k k1 v (fun hh => h hh.symm)]

theorem dfind_isSome_iff_mem {K V : Type} [DecidableEq K] (d : PyDict K V) (k : K) :
    (dfind d k).isSome ↔ k ∈ d.map Prod.fst := by
  induction d with
  | nil => simp
  | cons p rest ih =>
    obtain ⟨k0, v0⟩ := p
    by_cases h : k0 = k
    · subst h; simp
    · have hne : ¬ (k = k0) := fun hh => h hh.symm
      rw [dfind_cons, if_neg h, ih]
      simp [hne]

theorem dfind_eq_none_of_not_mem {K V : Type} [DecidableEq K] {d : PyDict K V} {k : K}
    (h : k ∉ d.map Prod.fst) : dfind d k = none := by
  cases hf : dfind d k with
  | none => rfl
  | some v =>
    exact absurd ((dfind_isSome_iff_mem d k).mp (by simp [hf])) h

theorem dfind_dpop_self {K V : Type} [DecidableEq K] (d : PyDict K V) (k : K)
    (hd : (d.map Prod.fst).Nodup) : dfind (dpop k d) k = none := by
  induction d with
  | nil => simp [dpop]
  | cons p rest ih =>
    obtain ⟨k0, v0⟩ := p
    simp only [List.map_cons, List.nodup_cons] at hd
    by_cases h : k0 = k
    · subst h
      rw [dpop, if_pos rfl]
      exact dfind_eq_none_of_not_mem hd.1
    · rw [dpop, if_neg h]
      simp [h, ih hd.2]

theorem dfind_dpop_ne {K V : Type} [DecidableEq K] (d : PyDict K V) (k k1 : K)
    (hne : k1 ≠ k) : dfind (dpop k d) k1 = dfind d k1 := by
  induction d with
  | nil => simp [dpop]
  | cons p rest ih =>
    obtain ⟨k0, v0⟩ := p
    by_cases h : k0 = k
    · subst h
      rw [dpop, if_pos rfl]
      have : ¬ (k0 = k1) := fun hh => hne hh.symm
      simp [this]
    · rw [dpop, if_neg h]
      simp [ih]

/-- Keys after a Python dict assignment: unchanged when the key was
already present, appended at the end when it was fresh. -/
theorem dinsert_map_fst {K V : Type} [DecidableEq K] (d : PyDict K V) (k : K) (v : V) :
    (dinsert k v d).map Prod.fst =
      if k ∈ d.map Prod.fst then d.map Prod.fst else d.map Prod.fst ++ [k] := by
  induction d with
  | nil => simp [dinsert]
  | cons p rest ih =>
    obtain ⟨k0, v0⟩ := p
    by_cases h : k0 = k
    · subst h
      simp [dinsert]
    · have hne : ¬ (k = k0) := fun hh => h hh.symm
      by_cases hmem : k ∈ rest.map Prod.fst
      · simp [dinsert, h, ih, hmem, hne]
      · simp [dinsert, h, ih, hmem, hne]

theorem dinsert_keys_nodup {K V : Type} [DecidableEq K] (d : PyDict K V) (k : K) (v : V)
    (hd : (d.map Prod.fst).Nodup) : ((dinsert k v d).map Prod.fst).Nodup := by
  rw [dinsert_map_fst]
  by_cases hmem : k ∈ d.map Prod.fst
  · simpa [hmem] using hd
  · simp only [hmem, if_false]
    exact List.Nodup.append hd (List.nodup_singleton k) (by simpa using hmem)

theorem dpop_sublist_keys {K V : Type} [DecidableEq K] (d : PyDict K V) (k : K) :
    ((dpop k d).map Prod.fst).Sublist (d.map Prod.fst) := by
  induction d with
  | nil => simp [dpop]
  | cons p rest ih =>
    obtain ⟨k0, v0⟩ := p
    by_cases h : k0 = k
    · rw [dpop, if_pos h]
      exact List.Sublist.cons _ (List.Sublist.refl _)
    · rw [dpop, if_neg h]
      simpa using List.Sublist.cons₂ k0 ih

theorem dpop_keys_nodup {K V : Type} [DecidableEq K] (d : PyDict K V) (k : K)
    (hd : (d.map Prod.fst).Nodup) : ((dpop k d).map Prod.fst).Nodup :=
  List.Nodup.sublist (dpop_sublist_keys d k) hd

/-- Python truthiness of a JSON value (the test `if not item_key`). -/
def truthy : JVal → Bool
  | .jnull => false
  | .jbool b => b
  | .jnum n => n != 0
  | .jstr s => s != ""
  | .jarr xs => !xs.isEmpty
  | .jobj fs => !fs.isEmpty

/-- The hashable scalar behind a JSON value, or none when Python would
raise TypeError on using it as a dict key. -/
def toKey : JVal → Option JScalar
  | .jnull => some .snull
  | .jbool b => some (.sbool b)
  | .jnum n => some (.snum n)
  | .jstr s => some (.sstr s)
  | .jarr _ => none
  | .jobj _ => none

/-- Python v.get(key, dflt): raises (error) unless v is a dict. -/
def pyGetD (v : JVal) (key : String) (dflt : JVal) : Except Unit JVal :=
  match v with
  | .jobj fields => .ok ((dfind fields key).getD dflt)
  | _ => .error ()

/-- Python iteration `for x in v`: lists yield their elements, strings
their characters, dicts their keys; other values raise TypeError. -/
def pyIter : JVal → Except Unit (List JVal)
  | .jarr xs => .ok xs
  | .jstr s => .ok (s.toList.map (fun c => .jstr (String.mk [c])))
  | .jobj fs => .ok (fs.map (fun p => .jstr p.1))
  | _ => .error ()

/-- PlayerItem from players_cache.py: name and count. -/
structure PlayerItem where
  name : JScalar
  count : Nat
deriving DecidableEq, Repr

/-- PlayerVehicle from players_cache.py: model hash (the raw value the
payload carried, possibly null) and resolved display name. -/
structure PlayerVehicle where
  model_hash : JVal
  name : String
deriving Repr

/-- PlayerData from players_cache.py. -/
structure PlayerData where
  items : PyDict JScalar PlayerItem
  vehicles : List PlayerVehicle
  last_updated : String
deriving Repr

/-- One step of the add_items helper inside PlayerCache.parse_inventory:
read item_key (default None), skip falsy keys, raise on unhashable
keys, then count the occurrence. -/
def addOneItem (items : PyDict JScalar PlayerItem) (rawItem : JVal) :
    Except Unit (PyDict JScalar PlayerItem) := do
  let keyVal ← pyGetD rawItem "item_key" .jnull
  if truthy keyVal then
    match toKey keyVal with
    | none => .error ()
    | some k =>
      match dfind items k with
      | some it => pure (dinsert k { it with count := it.count + 1 } items)
      | none => pure (dinsert k (PlayerItem.mk k 1) items)
  else
    pure items

/-- The add_items helper: fold one source list into the accumulator. -/
def addItems (source : JVal) (items : PyDict JScalar PlayerItem) :
    Except Unit (PyDict JScalar PlayerItem) := do
  let elems ← pyIter source
  elems.foldlM addOneItem items

/-- PlayerCache.parse_inventory: merge the Inventory.Items list and the
PostOfficeItems list of the user object into one item-count dict. -/
def parse_inventory (user : JVal) : Except Unit (PyDict JScalar PlayerItem) := do
  let inventory ← pyGetD user "Inventory" (.jobj [])
  let invItems ← pyGetD inventory "Items" (.jarr [])
  let items1 ← addItems invItems []
  let postItems ← pyGetD user "PostOfficeItems" (.jarr [])
  addItems postItems items1

/-- The display name a hashable model-hash value resolves to: only an
integer key present in the catalog resolves, every other hashable
value falls back to the sentinel. -/
def resolveName (catalog : PyDict Int String) (k : JScalar) : String :=
  match k with
  | .snum n => (dfind catalog n).getD "Unknown Vehicle"
  | _ => "Unknown Vehicle"

/-- vehicle_dict.get(modelHash, Unknown Vehicle): the dict lookup
hashes its key, so an unhashable value (a decoded list or object)
raises TypeError; a hashable value resolves through the catalog with
the fallback. -/
def catalogName (catalog : PyDict Int String) (hash : JVal) : Except Unit String :=
  match toKey hash with
  | none => .error ()
  | some k => .ok (resolveName catalog k)

/-- PlayerCache.parse_vehicles: one PlayerVehicle per raw entry, the
display name resolved through the catalog with a fallback; an entry
whose ModelHash cannot be hashed raises and fails the whole parse. -/
def parse_vehicles (vehiclesJson : JVal) (catalog : PyDict Int String) :
    Except Unit (List PlayerVehicle) := do
  let elems ← pyIter vehiclesJson
  elems.mapM (fun v => do
    let h ← pyGetD v "ModelHash" .jnull
    let name ← catalogName catalog h
    pure (PlayerVehicle.mk h name))

/-- The mutable state of a PlayerCache: the primary store, the derived
lookup index, and the display-name-to-item-id mapping installed by
update_items_dict.  The lock, logger and file path carry no data. -/
structure PlayerCache where
  cache : PyDict String PlayerData
  lookup_cache : PyDict JScalar (PyDict String Nat)
  items : PyDict String String
deriving Repr

def emptyCache : PlayerCache := ⟨[], [], []⟩

/-- The namespaced lookup key for a vehicle display name. -/
def vehicleKey (name : String) : JScalar := .sstr ("vehicle:" ++ name)

/-- The removal phase of update_player: pop the player from every
lookup entry its old record contributed to. -/
def removeLookup (st : PlayerCache) (player : String) : PlayerCache :=
  match dfind st.cache player with
  | none => st
  | some old =>
    let l1 := old.items.foldl
      (fun l entry =>
        match dfind l entry.1 with
        | some inner => dinsert entry.1 (dpop player inner) l
        | none => l)
      st.lookup_cache
    let l2 := old.vehicles.foldl
      (fun l v =>
        match dfind l (vehicleKey v.name) with
        | some inner => dinsert (vehicleKey v.name) (dpop player inner) l
        | none => l)
      l1
    { st with lookup_cache := l2 }

/-- The insertion phase of update_player and of rebuild_lookup_cache:
write the items of the record (with their counts) and then its
vehicles (with constant 1) into the lookup index. -/
def insertLookup (lc : PyDict JScalar (PyDict String Nat)) (player : String)
    (record : PlayerData) : PyDict JScalar (PyDict String Nat) :=
  let l1 := record.items.foldl
    (fun l entry => dinsert entry.1 (dinsert player entry.2.count ((dfind l entry.1).getD [])) l)
    lc
  record.vehicles.foldl
    (fun l v =>
      dinsert (vehicleKey v.name) (dinsert player 1 ((dfind l (vehicleKey v.name)).getD [])) l)
    l1

/-- How a call to PlayerCache.update_player ended.  decodeFailed covers
every exception raised before any mutation (json.loads failing, or the
decoded payload not being an object); parseFailed covers exceptions
raised while parsing the user data, after the removal phase already
ran; updated is the success path. -/
inductive UpdateResult where
  | decodeFailed
  | parseFailed
  | updated
deriving DecidableEq, Repr

/-- PlayerCache.update_player.  The payload argument is the result of
json.loads on the raw string: none when decoding raises.  The
surrounding try/except of the source swallows the exception, so the
returned state is exactly the state at the point the exception fired. -/
def update_player (st : PlayerCache) (player : String) (payload : Option JVal)
    (catalog : PyDict Int String) (now : String) : PlayerCache × UpdateResult :=
  match payload with
  | none => (st, .decodeFailed)
  | some decoded =>
    match pyGetD decoded "user" (.jobj []) with
    | .error _ => (st, .decodeFailed)
    | .ok user =>
      let st1 := removeLookup st player
      match parse_inventory user with
      | .error _ => (st1, .parseFailed)
      | .ok newItems =>
        match pyGetD user "personal_vehicles" (.jarr []) with
        | .error _ => (st1, .parseFailed)
        | .ok vehiclesJson =>
          match parse_vehicles vehiclesJson catalog with
          | .error _ => (st1, .parseFailed)
          | .ok newVehicles =>
            let record : PlayerData := ⟨newItems, newVehicles, now⟩
            let st2 : PlayerCache := { st1 with cache := dinsert player record st1.cache }
            ({ st2 with lookup_cache := insertLookup st2.lookup_cache player record }, .updated)

/-- PlayerCache.get_player. -/
def get_player (st : PlayerCache) (player : String) : Option PlayerData :=
  dfind st.cache player

/-- PlayerCache.find_users_with_item: resolve the display name through
the items mapping; a missing or falsy id gives an empty result. -/
def find_users_with_item (st : PlayerCache) (itemName : String) : PyDict String Nat :=
  match dfind st.items itemName with
  | none => []
  | some id => if id = "" then [] else (dfind st.lookup_cache (.sstr id)).getD []

/-- PlayerCache.find_users_with_vehicle: read the namespaced lookup
entry and return the player names. -/
def find_users_with_vehicle (st : PlayerCache) (vehicleName : String) : List String :=
  ((dfind st.lookup_cache (vehicleKey vehicleName)).getD []).map Prod.fst

/-- PlayerCache.rebuild_lookup_cache: clear the index and re-derive it
from the primary store, player by player. -/
def rebuild_lookup_cache (cache : PyDict String PlayerData) :
    PyDict JScalar (PyDict String Nat) :=
  cache.foldl (fun l entry => insertLookup l entry.1 entry.2) []

/-- What PlayerCache.load_cache found on disk: no file, a file whose
decoding or record construction raises, or a decoded primary store. -/
inductive LoadInput where
  | missing
  | corrupt
  | decoded (data : PyDict String PlayerData)

/-- PlayerCache.load_cache: a missing file leaves the fresh empty
cache; an undecodable file is caught, logged, and both structures are
reset to empty; decoded data is installed and the index rebuilt. -/
def load_cache : LoadInput → PlayerCache
  | .missing => emptyCache
  | .corrupt => emptyCache
  | .decoded data => ⟨data, rebuild_lookup_cache data, []⟩

/-- Read one entry of a lookup index: the quantity stored for a player
under a key, if any. -/
def lget (lc : PyDict JScalar (PyDict String Nat)) (k : JScalar) (p : String) : Option Nat :=
  (dfind lc k).bind (fun inner => dfind inner p)

/-- The quantity the lookup index must hold for a player and key given
that player record: 1 when the key is one of the record vehicle keys
(vehicles are written after items and overwrite them), otherwise the
item count under that key, otherwise nothing. -/
def contrib (record : PlayerData) (k : JScalar) : Option Nat :=
  if ∃ v ∈ record.vehicles, vehicleKey v.name = k then some 1
  else (dfind record.items k).map PlayerItem.count

/-- What the lookup index must hold for a player and key given the
primary store: the contribution of the player record, if the player
has one. -/
def playerContrib (st : PlayerCache) (p : String) (k : JScalar) : Option Nat :=
  (dfind st.cache p).bind (fun record => contrib record k)

/-- The index/primary-store consistency invariant of the spec: every
lookup entry agrees with the current player record contribution. -/
def Consistent (st : PlayerCache) : Prop :=
  ∀ k p, lget st.lookup_cache k p = playerContrib st p k

/-- Well-formedness of the lookup index: every inner per-player dict
has pairwise distinct keys, as every CPython dict does. -/
def WFLookup (st : PlayerCache) : Prop :=
  ∀ k inner, dfind st.lookup_cache k = some inner → (inner.map Prod.fst).Nodup

theorem consistent_empty : Consistent emptyCache := by
  intro k p
  rfl

theorem wflookup_empty : WFLookup emptyCache := by
  intro k inner h
  simp [emptyCache, dfind] at h

/-- One write of the insertion phase. -/
def insOne (lc : PyDict JScalar (PyDict String Nat)) (player : String) (k : JScalar)
    (c : Nat) : PyDict JScalar (PyDict String Nat) :=
  dinsert k (dinsert player c ((dfind lc k).getD [])) lc

theorem lget_insOne (lc : PyDict JScalar (PyDict String Nat)) (player : String)
    (k : JScalar) (c : Nat) (k1 : JScalar) (p1 : String) :
    lget (insOne lc player k c) k1 p1 =
      if k = k1 ∧ p1 = player then some c else lget lc k1 p1 := by
  unfold insOne lget
  by_cases hk : k = k1
  · subst hk
    rw [dfind_dinsert_self]
    simp only [Option.some_bind, true_and]
    rw [dfind_dinsert]
    by_cases hp : player = p1
    · subst hp
      simp
    · have hp1 : ¬ (p1 = player) := fun h => hp h.symm
      simp only [hp, if_false, hp1]
      cases hfind : dfind lc k <;> simp [hfind]
  · have hcond : ¬ (k = k1 ∧ p1 = player) := fun hc => hk hc.1
    rw [dfind_dinsert, if_neg hk, if_neg hcond]

theorem wf_insOne (lc : PyDict JScalar (PyDict String Nat)) (player : String)
    (k : JScalar) (c : Nat)
    (hwf : ∀ k0 inner, dfind lc k0 = some inner → (inner.map Prod.fst).Nodup) :
    ∀ k0 inner, dfind (insOne lc player k c) k0 = some inner →
      (inner.map Prod.fst).Nodup := by
  intro k0 inner h
  unfold insOne at h
  rw [dfind_dinsert] at h
  by_cases hk : k = k0
  · rw [if_pos hk] at h
    cases h
    apply dinsert_keys_nodup
    cases hfind : dfind lc k with
    | none => simp [hfind]
    | some inner0 => simpa [hfind] using hwf k inner0 hfind
  · rw [if_neg hk] at h
    exact hwf k0 inner h

/-- The item half of the insertion phase, as a standalone fold. -/
def insItems (lc : PyDict JScalar (PyDict String Nat)) (player : String)
    (items : PyDict JScalar PlayerItem) : PyDict JScalar (PyDict String Nat) :=
  items.foldl (fun l entry => insOne l player entry.1 entry.2.count) lc

/-- The vehicle half of the insertion phase, as a standalone fold. -/
def insVehicles (lc : PyDict JScalar (PyDict String Nat)) (player : String)
    (vehicles : List PlayerVehicle) : PyDict JScalar (PyDict String Nat) :=
  vehicles.foldl (fun l v => insOne l player (vehicleKey v.name) 1) lc

theorem insertLookup_eq (lc : PyDict JScalar (PyDict String Nat)) (player : String)
    (record : PlayerData) :
    insertLookup lc player record =
      insVehicles (insItems lc player record.items) player record.vehicles := rfl

theorem lget_insItems (player : String) (items : PyDict JScalar PlayerItem)
    (hnd : (items.map Prod.fst).Nodup) :
    ∀ (lc : PyDict JScalar (PyDict String Nat)) (k : JScalar) (p1 : String),
      lget (insItems lc player items) k p1 =
        if p1 = player then
          (match dfind items k with
           | some it => some it.count
           | none => lget lc k p1)
        else lget lc k p1 := by
  induction items with
  | nil =>
    intro lc k p1
    simp [insItems]
  | cons entry rest ih =>
    intro lc k p1
    obtain ⟨k0, it0⟩ := entry
    simp only [List.map_cons, List.nodup_cons] at hnd
    have hstep : insItems lc player ((k0, it0) :: rest) =
        insItems (insOne lc player k0 it0.count) player rest := rfl
    rw [hstep, ih hnd.2, lget_insOne]
    by_cases hp : p1 = player
    · simp only [hp, if_pos rfl, and_true]
      cases hrest : dfind rest k with
      | some it =>
        have hkne : ¬ (k0 = k) := by
          intro he
          subst he
          exact hnd.1 ((dfind_isSome_iff_mem rest k0).mp (by simp [hrest]))
        simp [hkne, hrest]
      | none =>
        by_cases hk : k0 = k
        · subst hk; simp
        · simp [hk, hrest]
    · simp [hp]

theorem lget_insVehicles (player : String) (vehicles : List PlayerVehicle) :
    ∀ (lc : PyDict JScalar (PyDict String Nat)) (k : JScalar) (p1 : String),
      lget (insVehicles lc player vehicles) k p1 =
        if p1 = player ∧ (∃ v ∈ vehicles, vehicleKey v.name = k) then some 1
        else lget lc k p1 := by
  induction vehicles with
  | nil =>
    intro lc k p1
    simp [insVehicles]
  | cons v rest ih =>
    intro lc k p1
    have hstep : insVehicles lc player (v :: rest) =
        insVehicles (insOne lc player (vehicleKey v.name) 1) player rest := rfl
    rw [hstep, ih, lget_insOne]
    by_cases hp : p1 = player
    · by_cases hrest : ∃ w ∈ rest, vehicleKey w.name = k
      · have hcons : ∃ w ∈ v :: rest, vehicleKey w.name = k := by
          obtain ⟨w, hw, hwk⟩ := hrest
          exact ⟨w, List.mem_cons_of_mem v hw, hwk⟩
        simp [hp, hrest, hcons]
      · by_cases hv : vehicleKey v.name = k
        · have hcons : ∃ w ∈ v :: rest, vehicleKey w.name = k := ⟨v, List.mem_cons_self v rest, hv⟩
          simp [hp, hrest, hv, hcons]
        · have hcons : ¬ ∃ w ∈ v :: rest, vehicleKey w.name = k := by
            rintro ⟨w, hw, hwk⟩
            rcases List.mem_cons.mp hw with he | he
            · exact hv (he ▸ hwk)
            · exact hrest ⟨w, he, hwk⟩
          simp [hp, hrest, hv, hcons]
    · simp [hp]

theorem lget_insertLookup (lc : PyDict JScalar (PyDict String Nat)) (player : String)
    (record : PlayerData) (hnd : (record.items.map Prod.fst).Nodup) (k : JScalar)
    (p1 : String) :
    lget (insertLookup lc player record) k p1 =
      if p1 = player then
        (match contrib record k with
         | some c => some c
         | none => lget lc k p1)
      else lget lc k p1 := by
  rw [insertLookup_eq, lget_insVehicles, lget_insItems player record.items hnd]
  by_cases hp : p1 = player
  · by_cases hveh : ∃ v ∈ record.vehicles, vehicleKey v.name = k
    · simp [hp, hveh, contrib]
    · simp only [hp, if_pos rfl, and_true, true_and, hveh, if_false, contrib]
      cases hitems : dfind record.items k <;> simp [hveh, hitems]
  · simp [hp]

theorem wf_insItems (player : String) (items : PyDict JScalar PlayerItem) :
    ∀ (lc : PyDict JScalar (PyDict String Nat)),
      (∀ k0 inner, dfind lc k0 = some inner → (inner.map Prod.fst).Nodup) →
      ∀ k0 inner, dfind (insItems lc player items) k0 = some inner →
        (inner.map Prod.fst).Nodup := by
  induction items with
  | nil => intro lc hwf; exact hwf
  | cons entry rest ih =>
    intro lc hwf
    exact ih (insOne lc player entry.1 entry.2.count) (wf_insOne lc player entry.1 entry.2.count hwf)

theorem wf_insVehicles (player : String) (vehicles : List PlayerVehicle) :
    ∀ (lc : PyDict JScalar (PyDict String Nat)),
      (∀ k0 inner, dfind lc k0 = some inner → (inner.map Prod.fst).Nodup) →
      ∀ k0 inner, dfind (insVehicles lc player vehicles) k0 = some inner →
        (inner.map Prod.fst).Nodup := by
  induction vehicles with
  | nil => intro lc hwf; exact hwf
  | cons v rest ih =>
    intro lc hwf
    exact ih (insOne lc player (vehicleKey v.name) 1)
      (wf_insOne lc player (vehicleKey v.name) 1 hwf)

theorem wf_insertLookup (lc : PyDict JScalar (PyDict String Nat)) (player : String)
    (record : PlayerData)
    (hwf : ∀ k0 inner, dfind lc k0 = some inner → (inner.map Prod.fst).Nodup) :
    ∀ k0 inner, dfind (insertLookup lc player record) k0 = some inner →
      (inner.map Prod.fst).Nodup := by
  rw [insertLookup_eq]
  exact wf_insVehicles player record.vehicles _
    (wf_insItems player record.items lc hwf)

/-- One step of the removal phase: pop the player from the inner dict
stored under a key, when the key has one. -/
def remOne (lc : PyDict JScalar (PyDict String Nat)) (player : String)
    (k : JScalar) : PyDict JScalar (PyDict String Nat) :=
  match dfind lc k with
  | some inner => dinsert k (dpop player inner) lc
  | none => lc

theorem lget_remOne (lc : PyDict JScalar (PyDict String Nat)) (player : String)
    (k : JScalar) (k1 : JScalar) (p1 : String)
    (hwf : ∀ k0 inner, dfind lc k0 = some inner → (inner.map Prod.fst).Nodup) :
    lget (remOne lc player k) k1 p1 =
      if k = k1 ∧ p1 = player then none else lget lc k1 p1 := by
  unfold remOne
  cases hfind : dfind lc k with
  | none =>
    by_cases hcond : k = k1 ∧ p1 = player
    · rw [if_pos hcond]
      obtain ⟨hk, _⟩ := hcond
      subst hk
      simp [lget, hfind]
    · rw [if_neg hcond]
  | some inner =>
    unfold lget
    rw [dfind_dinsert]
    by_cases hk : k = k1
    · subst hk
      simp only [if_pos rfl, Option.some_bind, true_and]
      by_cases hp : p1 = player
      · subst hp
        simp [dfind_dpop_self inner p1 (hwf k inner hfind)]
      · simp [hp, dfind_dpop_ne inner player p1 hp, hfind]
    · have hcond : ¬ (k = k1 ∧ p1 = player) := fun hc => hk hc.1
      simp [hk, hcond]

theorem wf_remOne (lc : PyDict JScalar (PyDict String Nat)) (player : String)
    (k : JScalar)
    (hwf : ∀ k0 inner, dfind lc k0 = some inner → (inner.map Prod.fst).Nodup) :
    ∀ k0 inner, dfind (remOne lc player k) k0 = some inner →
      (inner.map Prod.fst).Nodup := by
  intro k0 inner h
  unfold remOne at h
  cases hfind : dfind lc k with
  | none => rw [hfind] at h; exact hwf k0 inner h
  | some inner0 =>
    rw [hfind, dfind_dinsert] at h
    by_cases hk : k = k0
    · rw [if_pos hk] at h
      cases h
      exact dpop_keys_nodup inner0 player (hwf k inner0 hfind)
    · rw [if_neg hk] at h
      exact hwf k0 inner h

/-- The removal phase over a list of keys. -/
def remKeys (lc : PyDict JScalar (PyDict String Nat)) (player : String)
    (ks : List JScalar) : PyDict JScalar (PyDict String Nat) :=
  ks.foldl (fun l k => remOne l player k) lc

theorem wf_remKeys (player : String) (ks : List JScalar) :
    ∀ (lc : PyDict JScalar (PyDict String Nat)),
      (∀ k0 inner, dfind lc k0 = some inner → (inner.map Prod.fst).Nodup) →
      ∀ k0 inner, dfind (remKeys lc player ks) k0 = some inner →
        (inner.map Prod.fst).Nodup := by
  induction ks with
  | nil => intro lc hwf; exact hwf
  | cons k rest ih =>
    intro lc hwf
    exact ih (remOne lc player k) (wf_remOne lc player k hwf)

theorem lget_remKeys (player : String) (ks : List JScalar) :
    ∀ (lc : PyDict JScalar (PyDict String Nat)),
      (∀ k0 inner, dfind lc k0 = some inner → (inner.map Prod.fst).Nodup) →
      ∀ (k1 : JScalar) (p1 : String),
        lget (remKeys lc player ks) k1 p1 =
          if p1 = player ∧ k1 ∈ ks then none else lget lc k1 p1 := by
  induction ks with
  | nil =>
    intro lc hwf k1 p1
    simp [remKeys]
  | cons k rest ih =>
    intro lc hwf k1 p1
    have hstep : remKeys lc player (k :: rest) = remKeys (remOne lc player k) player rest := rfl
    rw [hstep, ih (remOne lc player k) (wf_remOne lc player k hwf), lget_remOne lc player k k1 p1 hwf]
    by_cases hp : p1 = player
    · by_cases hrest : k1 ∈ rest
      · simp [hp, hrest]
      · by_cases hk : k = k1
        · simp [hp, hrest, hk]
        · have hne : ¬ (k1 = k) := fun h => hk h.symm
          simp [hp, hrest, hk, hne]
    · simp [hp]

theorem removeLookup_eq_absent (st : PlayerCache) (player : String)
    (h : dfind st.cache player = none) : removeLookup st player = st := by
  unfold removeLookup
  rw [h]

theorem removeLookup_eq_present (st : PlayerCache) (player : String) (old : PlayerData)
    (h : dfind st.cache player = some old) :
    removeLookup st player =
      { st with lookup_cache :=
          (remKeys (remKeys st.lookup_cache player (old.items.map Prod.fst)) player
            (old.vehicles.map (fun v => vehicleKey v.name))) } := by
  unfold removeLookup
  rw [h]
  simp only [remKeys, List.foldl_map]
  rfl

theorem removeLookup_cache (st : PlayerCache) (player : String) :
    (removeLookup st player).cache = st.cache := by
  cases hfind : dfind st.cache player with
  | none => rw [removeLookup_eq_absent st player hfind]
  | some old => rw [removeLookup_eq_present st player old hfind]

theorem removeLookup_items_field (st : PlayerCache) (player : String) :
    (removeLookup st player).items = st.items := by
  cases hfind : dfind st.cache player with
  | none => rw [removeLookup_eq_absent st player hfind]
  | some old => rw [removeLookup_eq_present st player old hfind]

theorem contrib_isSome_iff (record : PlayerData) (k : JScalar) :
    (contrib record k).isSome ↔
      (k ∈ record.items.map Prod.fst ∨
       k ∈ record.vehicles.map (fun v => vehicleKey v.name)) := by
  unfold contrib
  by_cases hveh : ∃ v ∈ record.vehicles, vehicleKey v.name = k
  · have hmem : k ∈ record.vehicles.map (fun v => vehicleKey v.name) := by
      obtain ⟨v, hv, hvk⟩ := hveh
      exact List.mem_map.mpr ⟨v, hv, hvk⟩
    simp [hveh, hmem]
  · have hmem : k ∉ record.vehicles.map (fun v => vehicleKey v.name) := by
      intro hm
      rcases List.mem_map.mp hm with ⟨v, hv, hvk⟩
      exact hveh ⟨v, hv, hvk⟩
    simp [hveh, hmem, Option.isSome_map, dfind_isSome_iff_mem]

theorem wf_removeLookup (st : PlayerCache) (player : String)
    (hwf : WFLookup st) : WFLookup (removeLookup st player) := by
  cases hfind : dfind st.cache player with
  | none => rw [removeLookup_eq_absent st player hfind]; exact hwf
  | some old =>
    rw [removeLookup_eq_present st player old hfind]
    intro k inner h
    exact wf_remKeys player (old.vehicles.map (fun v => vehicleKey v.name)) _
      (wf_remKeys player (old.items.map Prod.fst) st.lookup_cache hwf) k inner h

theorem lget_removeLookup_present (st : PlayerCache) (player : String) (old : PlayerData)
    (hfind : dfind st.cache player = some old) (hwf : WFLookup st)
    (k1 : JScalar) (p1 : String) :
    lget (removeLookup st player).lookup_cache k1 p1 =
      if p1 = player ∧ (contrib old k1).isSome then none
      else lget st.lookup_cache k1 p1 := by
  rw [removeLookup_eq_present st player old hfind]
  have hwf1 : ∀ k0 inner, dfind (remKeys st.lookup_cache player (old.items.map Prod.fst)) k0
      = some inner → (inner.map Prod.fst).Nodup :=
    wf_remKeys player (old.items.map Prod.fst) st.lookup_cache hwf
  show lget (remKeys (remKeys st.lookup_cache player (old.items.map Prod.fst)) player
      (old.vehicles.map (fun v => vehicleKey v.name))) k1 p1 =
    if p1 = player ∧ (contrib old k1).isSome then none
    else lget st.lookup_cache k1 p1
  rw [lget_remKeys player (old.vehicles.map (fun v => vehicleKey v.name)) _ hwf1,
    lget_remKeys player (old.items.map Prod.fst) st.lookup_cache hwf]
  by_cases hp : p1 = player
  · by_cases hsome : (contrib old k1).isSome
    · rcases (contrib_isSome_iff old k1).mp hsome with hmem | hmem
      · simp [hp, hsome, hmem]
      · simp [hp, hsome, hmem]
    · have hni : k1 ∉ old.items.map Prod.fst := by
        intro hm
        exact hsome ((contrib_isSome_iff old k1).mpr (Or.inl hm))
      have hnv : k1 ∉ old.vehicles.map (fun v => vehicleKey v.name) := by
        intro hm
        exact hsome ((contrib_isSome_iff old k1).mpr (Or.inr hm))
      simp [hp, hsome, hni, hnv]
  · simp [hp]

/-- Well-formedness of a parsed item dict: distinct keys, every entry
named after its key, and every count at least one. -/
def ItemsWF (items : PyDict JScalar PlayerItem) : Prop :=
  (items.map Prod.fst).Nodup ∧
  ∀ k it, dfind items k = some it → it.name = k ∧ 1 ≤ it.count

theorem itemswf_nil : ItemsWF [] := by
  refine ⟨List.nodup_nil, ?_⟩
  intro k it h
  simp [dfind] at h

theorem addOneItem_wf (items : PyDict JScalar PlayerItem) (rawItem : JVal)
    (out : PyDict JScalar PlayerItem) (hwf : ItemsWF items)
    (h : addOneItem items rawItem = .ok out) : ItemsWF out := by
  unfold addOneItem at h
  simp only [Bind.bind, Except.bind] at h
  split at h
  · exact Except.noConfusion h
  · split at h
    · split at h
      · exact Except.noConfusion h
      · rename_i keyVal hget htruthy k hkey
        split at h
        · rename_i it hfind
          simp only [pure, Except.pure, Except.ok.injEq] at h
          subst h
          constructor
          · exact dinsert_keys_nodup items k _ hwf.1
          · intro k1 it1 h1
            rw [dfind_dinsert] at h1
            by_cases hk : k = k1
            · rw [if_pos hk] at h1
              cases h1
              have hold := hwf.2 k it hfind
              exact ⟨hk ▸ hold.1, Nat.le_succ_of_le hold.2⟩
            · rw [if_neg hk] at h1
              exact hwf.2 k1 it1 h1
        · rename_i hfind
          simp only [pure, Except.pure, Except.ok.injEq] at h
          subst h
          constructor
          · exact dinsert_keys_nodup items k _ hwf.1
          · intro k1 it1 h1
            rw [dfind_dinsert] at h1
            by_cases hk : k = k1
            · rw [if_pos hk] at h1
              cases h1
              exact ⟨hk, Nat.le_refl 1⟩
            · rw [if_neg hk] at h1
              exact hwf.2 k1 it1 h1
    · simp only [pure, Except.pure, Except.ok.injEq] at h
      exact h ▸ hwf

theorem foldlM_addOneItem_wf (elems : List JVal) :
    ∀ (items out : PyDict JScalar PlayerItem), ItemsWF items →
      elems.foldlM addOneItem items = .ok out → ItemsWF out := by
  induction elems with
  | nil =>
    intro items out hwf h
    simp only [List.foldlM_nil, pure, Except.pure, Except.ok.injEq] at h
    exact h ▸ hwf
  | cons e rest ih =>
    intro items out hwf h
    rw [List.foldlM_cons] at h
    simp only [Bind.bind, Except.bind] at h
    split at h
    · exact Except.noConfusion h
    · rename_i items1 hstep
      exact ih items1 out (addOneItem_wf items e items1 hwf hstep) h

theorem addItems_wf (source : JVal) (items out : PyDict JScalar PlayerItem)
    (hwf : ItemsWF items) (h : addItems source items = .ok out) : ItemsWF out := by
  unfold addItems at h
  simp only [Bind.bind, Except.bind] at h
  split at h
  · exact Except.noConfusion h
  · rename_i elems hiter
    exact foldlM_addOneItem_wf elems items out hwf h

theorem parse_inventory_wf (user : JVal) (out : PyDict JScalar PlayerItem)
    (h : parse_inventory user = .ok out) : ItemsWF out := by
  unfold parse_inventory at h
  simp only [Bind.bind, Except.bind] at h
  split at h
  · exact Except.noConfusion h
  · rename_i inventory hinv
    split at h
    · exact Except.noConfusion h
    · rename_i invItems hitems
      split at h
      · exact Except.noConfusion h
      · rename_i items1 hadd1
        split at h
        · exact Except.noConfusion h
        · rename_i postItems hpost
          exact addItems_wf postItems items1 out (addItems_wf invItems [] items1 itemswf_nil hadd1) h

/-- Characterization of a successful update_player call: some record
with the fresh timestamp and a well-formed item dict is installed in
the primary store, the items mapping is untouched, and the lookup
index is the removal phase followed by the insertion phase. -/
theorem update_player_updated (st : PlayerCache) (player : String) (payload : Option JVal)
    (catalog : PyDict Int String) (now : String) (st1 : PlayerCache)
    (h : update_player st player payload catalog now = (st1, .updated)) :
    ∃ record : PlayerData,
      record.last_updated = now ∧
      ItemsWF record.items ∧
      st1.cache = dinsert player record st.cache ∧
      st1.items = st.items ∧
      st1.lookup_cache = insertLookup (removeLookup st player).lookup_cache player record := by
  unfold update_player at h
  split at h
  · simp at h
  · rename_i decoded
    split at h
    · simp at h
    · rename_i user huser
      split at h
      · simp at h
      · rename_i newItems hitems
        split at h
        · simp at h
        · rename_i vehiclesJson hvj
          split at h
          · simp at h
          · rename_i newVehicles hpv
            dsimp only at h
            injection h with h1 h2
            subst h1
            refine ⟨⟨newItems, newVehicles, now⟩, rfl,
              parse_inventory_wf user newItems hitems, ?_, ?_, ?_⟩
            · show dinsert player _ (removeLookup st player).cache = _
              rw [removeLookup_cache]
            · exact removeLookup_items_field st player
            · rfl

/-- A failed update_player call never touches the primary store. -/
theorem update_player_cache_of_failed (st : PlayerCache) (player : String)
    (payload : Option JVal) (catalog : PyDict Int String) (now : String)
    (st1 : PlayerCache) (res : UpdateResult)
    (h : update_player st player payload catalog now = (st1, res))
    (hres : res ≠ .updated) : st1.cache = st.cache ∧ st1.items = st.items := by
  unfold update_player at h
  split at h
  · injection h with h1 h2; subst h1; exact ⟨rfl, rfl⟩
  · split at h
    · injection h with h1 h2; subst h1; exact ⟨rfl, rfl⟩
    · split at h
      · injection h with h1 h2
        subst h1
        exact ⟨removeLookup_cache st player, removeLookup_items_field st player⟩
      · split at h
        · injection h with h1 h2
          subst h1
          exact ⟨removeLookup_cache st player, removeLookup_items_field st player⟩
        · split at h
          · injection h with h1 h2
            subst h1
            exact ⟨removeLookup_cache st player, removeLookup_items_field st player⟩
          · dsimp only at h
            injection h with h1 h2
            exact absurd h2.symm hres

/-- A decode failure (json.loads raising, or a non-object top level)
happens before the lock is taken: the state is left untouched. -/
theorem update_player_decode_failed (st : PlayerCache) (player : String)
    (payload : Option JVal) (catalog : PyDict Int String) (now : String)
    (st1 : PlayerCache)
    (h : update_player st player payload catalog now = (st1, .decodeFailed)) :
    st1 = st := by
  unfold update_player at h
  split at h
  · injection h with h1 h2; exact h1.symm
  · split at h
    · injection h with h1 h2; exact h1.symm
    · split at h
      · simp at h
      · split at h
        · simp at h
        · split at h
          · simp at h
          · dsimp only at h
            simp at h

/-- A parse failure after a successful decode leaves the state of the
removal phase behind: the primary store is intact but the old lookup
contributions of the player are gone. -/
theorem update_player_parse_failed (st : PlayerCache) (player : String)
    (payload : Option JVal) (catalog : PyDict Int String) (now : String)
    (st1 : PlayerCache)
    (h : update_player st player payload catalog now = (st1, .parseFailed)) :
    st1 = removeLookup st player := by
  unfold update_player at h
  split at h
  · simp at h
  · split at h
    · simp at h
    · split at h
      · injection h with h1 h2; exact h1.symm
      · split at h
        · injection h with h1 h2; exact h1.symm
        · split at h
          · injection h with h1 h2; exact h1.symm
          · dsimp only at h
            simp at h

/-- A successful update_player call preserves the index/primary-store
invariant and the index well-formedness. -/
theorem update_player_preserves (st : PlayerCache) (player : String)
    (payload : Option JVal) (catalog : PyDict Int String) (now : String)
    (st1 : PlayerCache) (hwf : WFLookup st) (hcons : Consistent st)
    (h : update_player st player payload catalog now = (st1, .updated)) :
    Consistent st1 ∧ WFLookup st1 := by
  obtain ⟨record, hnow, hitemswf, hcache, hitems, hlookup⟩ :=
    update_player_updated st player payload catalog now st1 h
  constructor
  · intro k p1
    unfold lget
    rw [hlookup]
    have hins := lget_insertLookup (removeLookup st player).lookup_cache player record
      hitemswf.1 k p1
    unfold lget at hins
    rw [hins]
    unfold playerContrib
    rw [hcache, dfind_dinsert]
    by_cases hp : p1 = player
    · subst hp
      simp only [eq_self_iff_true, if_true, Option.some_bind]
      cases hc : contrib record k with
      | some c => simp [hc]
      | none =>
        simp only [hc]
        cases hfind : dfind st.cache p1 with
        | none =>
          rw [removeLookup_eq_absent st p1 hfind]
          have hold := hcons k p1
          unfold playerContrib lget at hold
          rw [hfind, Option.none_bind] at hold
          exact hold
        | some old =>
          have hrem := lget_removeLookup_present st p1 old hfind hwf k p1
          unfold lget at hrem
          rw [hrem]
          by_cases hsome : (contrib old k).isSome
          · simp [hsome]
          · have hnone : contrib old k = none := Option.not_isSome_iff_eq_none.mp hsome
            have hcond : ¬ (p1 = p1 ∧ (contrib old k).isSome = true) := fun hcc => hsome hcc.2
            rw [if_neg hcond]
            have hold := hcons k p1
            unfold playerContrib lget at hold
            rw [hfind, Option.some_bind, hnone] at hold
            exact hold
    · have hp2 : ¬ (player = p1) := fun hh => hp hh.symm
      rw [if_neg hp, if_neg hp2]
      cases hfind : dfind st.cache player with
      | none =>
        rw [removeLookup_eq_absent st player hfind]
        have hold := hcons k p1
        unfold playerContrib lget at hold
        exact hold
      | some old =>
        have hrem := lget_removeLookup_present st player old hfind hwf k p1
        unfold lget at hrem
        rw [hrem]
        have hcond : ¬ (p1 = player ∧ (contrib old k).isSome = true) := fun hcc => hp hcc.1
        rw [if_neg hcond]
        have hold := hcons k p1
        unfold playerContrib lget at hold
        exact hold
  · intro k inner hh
    rw [hlookup] at hh
    exact wf_insertLookup (removeLookup st player).lookup_cache player record
      (wf_removeLookup st player hwf) k inner hh

/-- One recorded update operation of a crawl: the player, the decoded
payload handed to update_player, and the timestamp taken inside. -/
structure UpdateOp where
  player : String
  payload : Option JVal
  now : String

/-- Fold a list of update_player calls over a cache state. -/
def applyAll (catalog : PyDict Int String) : PlayerCache → List UpdateOp → PlayerCache
  | st, [] => st
  | st, op :: ops =>
      applyAll catalog (update_player st op.player op.payload catalog op.now).1 ops

/-- Every call of the sequence takes the success path. -/
def AllSucceed (catalog : PyDict Int String) : PlayerCache → List UpdateOp → Prop
  | _, [] => True
  | st, op :: ops =>
      (update_player st op.player op.payload catalog op.now).2 = .updated ∧
      AllSucceed catalog (update_player st op.player op.payload catalog op.now).1 ops

theorem applyAll_preserves (catalog : PyDict Int String) (ops : List UpdateOp) :
    ∀ st : PlayerCache, WFLookup st → Consistent st → AllSucceed catalog st ops →
      Consistent (applyAll catalog st ops) ∧ WFLookup (applyAll catalog st ops) := by
  induction ops with
  | nil => intro st hwf hcons _; exact ⟨hcons, hwf⟩
  | cons op rest ih =>
    intro st hwf hcons hsucc
    obtain ⟨hstep, hrest⟩ := hsucc
    set st1 := (update_player st op.player op.payload catalog op.now).1 with hst1
    have hpair : update_player st op.player op.payload catalog op.now = (st1, .updated) := by
      rw [hst1, ← hstep]
    obtain ⟨hcons1, hwf1⟩ :=
      update_player_preserves st op.player op.payload catalog op.now st1 hwf hcons hpair
    exact ih st1 hwf1 hcons1 hrest

/-- What the rebuild fold computes: a player that owns a record in the
store reads its own contribution out of the rebuilt index, every other
entry falls through to the accumulator. -/
theorem lget_rebuild_fold (data : PyDict String PlayerData)
    (hkeys : (data.map Prod.fst).Nodup)
    (hrecords : ∀ e ∈ data, (e.2.items.map Prod.fst).Nodup) :
    ∀ (lc : PyDict JScalar (PyDict String Nat)) (k : JScalar) (p : String),
      lget (data.foldl (fun l entry => insertLookup l entry.1 entry.2) lc) k p =
        (match dfind data p with
         | some record =>
             (match contrib record k with
              | some c => some c
              | none => lget lc k p)
         | none => lget lc k p) := by
  induction data with
  | nil =>
    intro lc k p
    simp
  | cons entry rest ih =>
    intro lc k p
    obtain ⟨p0, r0⟩ := entry
    simp only [List.map_cons, List.nodup_cons] at hkeys
    have hr0 : (r0.items.map Prod.fst).Nodup := hrecords (p0, r0) (List.mem_cons_self _ _)
    have hrest : ∀ e ∈ rest, (e.2.items.map Prod.fst).Nodup :=
      fun e he => hrecords e (List.mem_cons_of_mem _ he)
    have hstep : List.foldl (fun l entry => insertLookup l entry.1 entry.2) lc ((p0, r0) :: rest)
        = List.foldl (fun l entry => insertLookup l entry.1 entry.2) (insertLookup lc p0 r0) rest := rfl
    rw [hstep, ih hkeys.2 hrest (insertLookup lc p0 r0) k p]
    cases hfind : dfind rest p with
    | some record =>
      have hpne : ¬ (p0 = p) := by
        intro he
        subst he
        exact hkeys.1 ((dfind_isSome_iff_mem rest p0).mp (by simp [hfind]))
      rw [dfind_cons, if_neg hpne, hfind]
      cases hc : contrib record k with
      | some c => simp [hc]
      | none =>
        simp only [hc]
        have hins := lget_insertLookup lc p0 r0 hr0 k p
        rw [hins, if_neg (fun hh : p = p0 => hpne hh.symm)]
    | none =>
      rw [dfind_cons, hfind]
      have hins := lget_insertLookup lc p0 r0 hr0 k p
      by_cases hp : p0 = p
      · subst hp
        rw [if_pos rfl]
        rw [hins, if_pos rfl]
      · rw [if_neg hp]
        rw [hins, if_neg (fun hh : p = p0 => hp hh.symm)]

/-- The index rebuilt from a decoded primary store satisfies the
index/primary-store invariant. -/
theorem load_decoded_consistent (data : PyDict String PlayerData)
    (hkeys : (data.map Prod.fst).Nodup)
    (hrecords : ∀ e ∈ data, (e.2.items.map Prod.fst).Nodup) :
    Consistent (load_cache (.decoded data)) := by
  intro k p
  show lget (rebuild_lookup_cache data) k p = _
  unfold rebuild_lookup_cache
  rw [lget_rebuild_fold data hkeys hrecords [] k p]
  unfold playerContrib
  show _ = (dfind data p).bind fun record => contrib record k
  cases hfind : dfind data p with
  | none => simp [lget]
  | some record =>
    cases hc : contrib record k with
    | some c => simp [hc]
    | none => simp [hc, lget]

/-!
The browser-session crawl loop of player_scraper.py, at the
granularity of single dispatched fetches.  process_batch pops players
from the retry queue when it is non-empty, else from the main queue;
every popped player is dispatched exactly once and ends in one of
three ways: processed successfully, handed to add_to_retry_queue
(page-open failure or batch timeout), or silently discarded when the
response processing or the window cleanup itself raises.  Batching
only groups consecutive dispatches and changes none of the queue or
attempt bookkeeping, so it is collapsed here.  The dispatched list is
a ghost log recording one entry per fetch.
-/

/-- How one dispatched fetch of the browser-session scraper ends. -/
inductive FetchOutcome where
  | success
  | failure
  | dropped
deriving DecidableEq, Repr

/-- The queue and retry bookkeeping of the browser-session scraper. -/
structure ScrapeState where
  mainQ : List String
  retryQ : List String
  player_attempts : PyDict String Nat
  dispatched : List String
deriving Repr

/-- The state after initialize_data: the roster fills the main queue,
player_attempts starts empty (entries default to 0 on first read). -/
def initScrapeState (roster : List String) : ScrapeState := ⟨roster, [], [], []⟩

/-- PlayerScraper.add_to_retry_queue: bump the attempt counter and
re-enqueue while the new count is still below max_retries. -/
def add_to_retry_queue (maxRetries : Nat) (st : ScrapeState) (player : String) : ScrapeState :=
  let attempts := (dfind st.player_attempts player).getD 0 + 1
  let st1 := { st with player_attempts := dinsert player attempts st.player_attempts }
  if attempts < maxRetries then { st1 with retryQ := st1.retryQ ++ [player] } else st1

/-- One dispatched fetch for a player already popped from its queue. -/
def dispatchFetch (maxRetries : Nat) (st : ScrapeState) (player : String)
    (o : FetchOutcome) : ScrapeState :=
  let st1 := { st with dispatched := st.dispatched ++ [player] }
  match o with
  | .success => st1
  | .dropped => st1
  | .failure => add_to_retry_queue maxRetries st1 player

/-- One iteration of the crawl loop: pop from the retry queue when it
is non-empty, else from the main queue; no-op when both are empty. -/
def scrapeStep (maxRetries : Nat) (st : ScrapeState) (o : FetchOutcome) : ScrapeState :=
  match st.retryQ with
  | player :: rest => dispatchFetch maxRetries { st with retryQ := rest } player o
  | [] =>
    match st.mainQ with
    | player :: rest => dispatchFetch maxRetries { st with mainQ := rest } player o
    | [] => st

/-- Run the crawl loop against a stream of fetch outcomes. -/
def scrapeRun (maxRetries : Nat) : ScrapeState → List FetchOutcome → ScrapeState
  | st, [] => st
  | st, o :: os => scrapeRun maxRetries (scrapeStep maxRetries st o) os

/-- The failed_players list computed after the loop: every player
whose attempt counter reached max_retries. -/
def failed_players (maxRetries : Nat) (st : ScrapeState) : List String :=
  (st.player_attempts.filter (fun e => decide (maxRetries ≤ e.2))).map Prod.fst

/-- Externally visible events of scrape_all_players: one fetch per
dispatched player, and the save_cache call after the loop. -/
inductive ScrapeEvent where
  | fetch (player : String)
  | save
deriving DecidableEq, Repr

/-- PlayerScraper.scrape_all_players of player_scraper.py: loop until
both queues are empty, compute the failed list, save the cache.  The
returned trace holds one fetch event per dispatched request followed
by the unconditional save. -/
def scrape_all_players (maxRetries : Nat) (roster : List String)
    (outcomes : List FetchOutcome) : ScrapeState × List ScrapeEvent :=
  let final := scrapeRun maxRetries (initScrapeState roster) outcomes
  (final, final.dispatched.map ScrapeEvent.fetch ++ [ScrapeEvent.save])

/-!
The asyncio scraper of scraper/player_scraper.py.  process_player
fetches one profile; on HTTP 200 it hands the body to
cache_manager.update_player (which swallows every parse error
internally), marks the player processed and reports success; on a
non-200 status or an exception it calls handle_retry.  retry_counts
entries are created by load_players, modelled by a default of 0.
-/

/-- The state of the asyncio scraper that process_player touches. -/
structure AsyncScrapeState where
  cache : PlayerCache
  processed : List String
  retry_counts : PyDict String Nat
  players_queue : List String
deriving Repr

/-- How the fetch of one player resolved: HTTP 200 with a body whose
json.loads result is the payload (none when undecodable), a non-200
status, or an exception. -/
inductive FetchResult where
  | ok (payload : Option JVal)
  | httpError
  | netError
deriving Repr

/-- PlayerScraper.handle_retry of scraper/player_scraper.py. -/
def handle_retry (maxRetries : Nat) (st : AsyncScrapeState) (player : String) :
    AsyncScrapeState :=
  if (dfind st.retry_counts player).getD 0 < maxRetries then
    { st with
      retry_counts := dinsert player ((dfind st.retry_counts player).getD 0 + 1) st.retry_counts,
      players_queue := st.players_queue ++ [player] }
  else st

/-- PlayerScraper.process_player of scraper/player_scraper.py.  The
Bool is its return value. -/
def process_player (maxRetries : Nat) (catalog : PyDict Int String) (now : String)
    (st : AsyncScrapeState) (player : String) (res : FetchResult) :
    AsyncScrapeState × Bool :=
  if player ∈ st.processed then (st, true)
  else
    match res with
    | .ok payload =>
        ({ st with
            cache := (update_player st.cache player payload catalog now).1,
            processed := st.processed ++ [player] }, true)
    | .httpError => (handle_retry maxRetries st player, false)
    | .netError => (handle_retry maxRetries st player, false)

/-- The failed list of log_results: players whose retry count reached
max_retries. -/
def failed_players_async (maxRetries : Nat) (st : AsyncScrapeState) : List String :=
  (st.retry_counts.filter (fun e => decide (maxRetries ≤ e.2))).map Prod.fst

/-- How many copies of a player sit in the two queues. -/
def qcount (st : ScrapeState) (p : String) : Nat :=
  st.mainQ.count p + st.retryQ.count p

/-- The attempt counter of a player (0 before the first failure). -/
def attemptsOf (st : ScrapeState) (p : String) : Nat :=
  (dfind st.player_attempts p).getD 0

/-- How many fetches were dispatched for a player. -/
def dcount (st : ScrapeState) (p : String) : Nat :=
  st.dispatched.count p

/-- The per-player crawl invariant: at most one queued copy; while
queued, the dispatch count equals the attempt counter and the budget
is not exhausted; once out of the queues, the dispatch count is within
the budget. -/
def PlayerInv (maxRetries : Nat) (st : ScrapeState) (p : String) : Prop :=
  qcount st p ≤ 1 ∧
  (qcount st p = 1 → dcount st p = attemptsOf st p ∧ attemptsOf st p < maxRetries) ∧
  (qcount st p = 0 → dcount st p ≤ maxRetries)

theorem initScrapeState_inv (maxRetries : Nat) (roster : List String) (p : String)
    (hmax : 1 ≤ maxRetries) (hnodup : roster.Nodup) :
    PlayerInv maxRetries (initScrapeState roster) p := by
  refine ⟨?_, ?_, ?_⟩
  · have := List.nodup_iff_count_le_one.mp hnodup p
    simpa [qcount, initScrapeState] using this
  · intro _
    constructor
    · simp [dcount, attemptsOf, initScrapeState, dfind]
    · simpa [attemptsOf, initScrapeState, dfind] using hmax
  · intro _
    simp [dcount, initScrapeState]

theorem dispatch_counts_ne (maxRetries : Nat) (s : ScrapeState) (x : String)
    (o : FetchOutcome) (p : String) (hxp : x ≠ p) :
    qcount (dispatchFetch maxRetries s x o) p = qcount s p ∧
    attemptsOf (dispatchFetch maxRetries s x o) p = attemptsOf s p ∧
    dcount (dispatchFetch maxRetries s x o) p = dcount s p := by
  have hc : ∀ l : List String, (l ++ [x]).count p = l.count p := by
    intro l
    simp [List.count_append, List.count_singleton', hxp]
  cases o with
  | success =>
    refine ⟨rfl, rfl, ?_⟩
    simp [dcount, dispatchFetch, hc]
  | dropped =>
    refine ⟨rfl, rfl, ?_⟩
    simp [dcount, dispatchFetch, hc]
  | failure =>
    unfold dispatchFetch add_to_retry_queue
    dsimp only
    by_cases hlt : (dfind s.player_attempts x).getD 0 + 1 < maxRetries
    · rw [if_pos hlt]
      refine ⟨?_, ?_, ?_⟩
      · simp [qcount, hc]
      · simp [attemptsOf, dfind_dinsert_ne s.player_attempts x p _ (fun h => hxp h.symm)]
      · simp [dcount, hc]
    · rw [if_neg hlt]
      refine ⟨rfl, ?_, ?_⟩
      · simp [attemptsOf, dfind_dinsert_ne s.player_attempts x p _ (fun h => hxp h.symm)]
      · simp [dcount, hc]

theorem dispatch_inv_ne (maxRetries : Nat) (s : ScrapeState) (x : String)
    (o : FetchOutcome) (p : String) (hxp : x ≠ p)
    (hinv : PlayerInv maxRetries s p) :
    PlayerInv maxRetries (dispatchFetch maxRetries s x o) p := by
  obtain ⟨h1, h2, h3⟩ := dispatch_counts_ne maxRetries s x o p hxp
  unfold PlayerInv
  rw [h1, h2, h3]
  exact hinv

theorem dispatch_inv_self (maxRetries : Nat) (s : ScrapeState) (o : FetchOutcome)
    (p : String) (hq : qcount s p = 0) (hd : dcount s p = attemptsOf s p)
    (ha : attemptsOf s p < maxRetries) :
    PlayerInv maxRetries (dispatchFetch maxRetries s p o) p := by
  have hcp : ∀ l : List String, (l ++ [p]).count p = l.count p + 1 := by
    intro l
    simp [List.count_append]
  have hq0 : s.mainQ.count p + s.retryQ.count p = 0 := hq
  have hd0 : s.dispatched.count p = attemptsOf s p := hd
  cases o with
  | success =>
    refine ⟨?_, ?_, ?_⟩
    · show s.mainQ.count p + s.retryQ.count p ≤ 1
      omega
    · intro hq1
      have : s.mainQ.count p + s.retryQ.count p = 1 := hq1
      omega
    · intro _
      show (s.dispatched ++ [p]).count p ≤ maxRetries
      rw [hcp]
      omega
  | dropped =>
    refine ⟨?_, ?_, ?_⟩
    · show s.mainQ.count p + s.retryQ.count p ≤ 1
      omega
    · intro hq1
      have : s.mainQ.count p + s.retryQ.count p = 1 := hq1
      omega
    · intro _
      show (s.dispatched ++ [p]).count p ≤ maxRetries
      rw [hcp]
      omega
  | failure =>
    have hatt : (dfind s.player_attempts p).getD 0 = attemptsOf s p := rfl
    have hnew : attemptsOf (dispatchFetch maxRetries s p .failure) p = attemptsOf s p + 1 := by
      unfold dispatchFetch add_to_retry_queue
      dsimp only
      by_cases hlt : (dfind s.player_attempts p).getD 0 + 1 < maxRetries
      · rw [if_pos hlt]
        show (dfind (dinsert p ((dfind s.player_attempts p).getD 0 + 1) s.player_attempts) p).getD 0
          = attemptsOf s p + 1
        rw [dfind_dinsert_self]
        rfl
      · rw [if_neg hlt]
        show (dfind (dinsert p ((dfind s.player_attempts p).getD 0 + 1) s.player_attempts) p).getD 0
          = attemptsOf s p + 1
        rw [dfind_dinsert_self]
        rfl
    unfold dispatchFetch add_to_retry_queue at hnew ⊢
    dsimp only at hnew ⊢
    rw [hatt] at hnew ⊢
    by_cases hlt : attemptsOf s p + 1 < maxRetries
    · rw [if_pos hlt] at hnew ⊢
      refine ⟨?_, ?_, ?_⟩
      · show s.mainQ.count p + (s.retryQ ++ [p]).count p ≤ 1
        rw [hcp]
        omega
      · intro _
        constructor
        · show (s.dispatched ++ [p]).count p = _
          rw [hcp, hnew]
          omega
        · rw [hnew]
          exact hlt
      · intro hqz
        have : s.mainQ.count p + (s.retryQ ++ [p]).count p = 0 := hqz
        rw [hcp] at this
        omega
    · rw [if_neg hlt] at hnew ⊢
      refine ⟨?_, ?_, ?_⟩
      · show s.mainQ.count p + s.retryQ.count p ≤ 1
        omega
      · intro hq1
        have : s.mainQ.count p + s.retryQ.count p = 1 := hq1
        omega
      · intro _
        show (s.dispatched ++ [p]).count p ≤ maxRetries
        rw [hcp]
        omega

theorem scrapeStep_inv (maxRetries : Nat) (st : ScrapeState) (o : FetchOutcome)
    (p : String) (hinv : PlayerInv maxRetries st p) :
    PlayerInv maxRetries (scrapeStep maxRetries st o) p := by
  obtain ⟨mq, rq, pa, dp⟩ := st
  cases rq with
  | cons x rest =>
    show PlayerInv maxRetries (dispatchFetch maxRetries ⟨mq, rest, pa, dp⟩ x o) p
    by_cases hxp : x = p
    · subst hxp
      have hcnt : (x :: rest).count x = rest.count x + 1 := by
        simp [List.count_cons]
      have hq1 : qcount (⟨mq, x :: rest, pa, dp⟩ : ScrapeState) x = 1 := by
        have h1 := hinv.1
        unfold qcount at h1 ⊢
        dsimp only at h1 ⊢
        rw [hcnt] at h1 ⊢
        omega
      obtain ⟨hdq, haq⟩ := hinv.2.1 hq1
      apply dispatch_inv_self
      · show mq.count x + rest.count x = 0
        unfold qcount at hq1
        dsimp only at hq1
        rw [hcnt] at hq1
        omega
      · exact hdq
      · exact haq
    · apply dispatch_inv_ne maxRetries _ x o p hxp
      have hcnt : (x :: rest).count p = rest.count p := by
        simp [List.count_cons, hxp]
      obtain ⟨h1, h2, h3⟩ := hinv
      unfold qcount at h1 h2 h3
      rw [hcnt] at h1 h2 h3
      exact ⟨h1, h2, h3⟩
  | nil =>
    cases mq with
    | cons x rest =>
      show PlayerInv maxRetries (dispatchFetch maxRetries ⟨rest, [], pa, dp⟩ x o) p
      by_cases hxp : x = p
      · subst hxp
        have hcnt : (x :: rest).count x = rest.count x + 1 := by
          simp [List.count_cons]
        have hq1 : qcount (⟨x :: rest, [], pa, dp⟩ : ScrapeState) x = 1 := by
          have h1 := hinv.1
          unfold qcount at h1 ⊢
          dsimp only at h1 ⊢
          rw [hcnt] at h1 ⊢
          omega
        obtain ⟨hdq, haq⟩ := hinv.2.1 hq1
        apply dispatch_inv_self
        · show rest.count x + ([] : List String).count x = 0
          unfold qcount at hq1
          dsimp only at hq1
          rw [hcnt] at hq1
          omega
        · exact hdq
        · exact haq
      · apply dispatch_inv_ne maxRetries _ x o p hxp
        have hcnt : (x :: rest).count p = rest.count p := by
          simp [List.count_cons, hxp]
        obtain ⟨h1, h2, h3⟩ := hinv
        unfold qcount at h1 h2 h3
        rw [hcnt] at h1 h2 h3
        exact ⟨h1, h2, h3⟩
    | nil => exact hinv

theorem scrapeRun_inv (maxRetries : Nat) (os : List FetchOutcome) :
    ∀ (st : ScrapeState) (p : String), PlayerInv maxRetries st p →
      PlayerInv maxRetries (scrapeRun maxRetries st os) p := by
  induction os with
  | nil => intro st p hinv; exact hinv
  | cons o rest ih =>
    intro st p hinv
    exact ih (scrapeStep maxRetries st o) p (scrapeStep_inv maxRetries st o p hinv)

theorem inv_dcount_le (maxRetries : Nat) (st : ScrapeState) (p : String)
    (hinv : PlayerInv maxRetries st p) : dcount st p ≤ maxRetries := by
  obtain ⟨h1, h2, h3⟩ := hinv
  rcases Nat.le_one_iff_eq_zero_or_eq_one.mp h1 with hq | hq
  · exact h3 hq
  · obtain ⟨hd, ha⟩ := h2 hq
    omega

theorem dispatchFetch_dispatched (maxRetries : Nat) (s : ScrapeState) (x : String)
    (o : FetchOutcome) :
    (dispatchFetch maxRetries s x o).dispatched = s.dispatched ++ [x] := by
  cases o with
  | success => rfl
  | dropped => rfl
  | failure =>
    unfold dispatchFetch add_to_retry_queue
    dsimp only
    by_cases hlt : (dfind s.player_attempts x).getD 0 + 1 < maxRetries
    · rw [if_pos hlt]
    · rw [if_neg hlt]

theorem scrapeStep_zero (maxRetries : Nat) (st : ScrapeState) (o : FetchOutcome)
    (p : String) (hq : qcount st p = 0) (hd : dcount st p = 0) :
    qcount (scrapeStep maxRetries st o) p = 0 ∧
    dcount (scrapeStep maxRetries st o) p = 0 := by
  obtain ⟨mq, rq, pa, dp⟩ := st
  cases rq with
  | cons x rest =>
    have hxp : x ≠ p := by
      intro he
      subst he
      unfold qcount at hq
      dsimp only at hq
      simp only [List.count_cons_self] at hq
      omega
    obtain ⟨hq1, _, hd1⟩ := dispatch_counts_ne maxRetries ⟨mq, rest, pa, dp⟩ x o p hxp
    show qcount (dispatchFetch maxRetries ⟨mq, rest, pa, dp⟩ x o) p = 0 ∧
      dcount (dispatchFetch maxRetries ⟨mq, rest, pa, dp⟩ x o) p = 0
    rw [hq1, hd1]
    have hcnt : (x :: rest).count p = rest.count p := by
      simp [List.count_cons, hxp]
    constructor
    · show mq.count p + rest.count p = 0
      unfold qcount at hq
      dsimp only at hq
      rw [hcnt] at hq
      exact hq
    · exact hd
  | nil =>
    cases mq with
    | cons x rest =>
      have hxp : x ≠ p := by
        intro he
        subst he
        unfold qcount at hq
        dsimp only at hq
        simp only [List.count_cons_self] at hq
        omega
      obtain ⟨hq1, _, hd1⟩ := dispatch_counts_ne maxRetries ⟨rest, [], pa, dp⟩ x o p hxp
      show qcount (dispatchFetch maxRetries ⟨rest, [], pa, dp⟩ x o) p = 0 ∧
        dcount (dispatchFetch maxRetries ⟨rest, [], pa, dp⟩ x o) p = 0
      rw [hq1, hd1]
      have hcnt : (x :: rest).count p = rest.count p := by
        simp [List.count_cons, hxp]
      constructor
      · show rest.count p + ([] : List String).count p = 0
        unfold qcount at hq
        dsimp only at hq
        rw [hcnt] at hq
        exact hq
      · exact hd
    | nil => exact ⟨hq, hd⟩

theorem scrapeRun_zero (maxRetries : Nat) (os : List FetchOutcome) :
    ∀ (st : ScrapeState) (p : String), qcount st p = 0 → dcount st p = 0 →
      qcount (scrapeRun maxRetries st os) p = 0 ∧
      dcount (scrapeRun maxRetries st os) p = 0 := by
  induction os with
  | nil => intro st p hq hd; exact ⟨hq, hd⟩
  | cons o rest ih =>
    intro st p hq hd
    obtain ⟨hq1, hd1⟩ := scrapeStep_zero maxRetries st o p hq hd
    exact ih (scrapeStep maxRetries st o) p hq1 hd1

theorem dispatched_mem_roster (maxRetries : Nat) (roster : List String)
    (os : List FetchOutcome) (p : String)
    (hmem : p ∈ (scrapeRun maxRetries (initScrapeState roster) os).dispatched) :
    p ∈ roster := by
  by_contra hnr
  have hq0 : qcount (initScrapeState roster) p = 0 := by
    show roster.count p + ([] : List String).count p = 0
    simp [List.count_eq_zero.mpr hnr]
  have hd0 : dcount (initScrapeState roster) p = 0 := rfl
  obtain ⟨_, hdz⟩ := scrapeRun_zero maxRetries os (initScrapeState roster) p hq0 hd0
  unfold dcount at hdz
  exact (List.count_eq_zero.mp hdz) hmem

theorem scrapeRun_length_le (maxRetries : Nat) (roster : List String)
    (os : List FetchOutcome) (hmax : 1 ≤ maxRetries) (hnodup : roster.Nodup) :
    (scrapeRun maxRetries (initScrapeState roster) os).dispatched.length ≤
      maxRetries * roster.length := by
  set l := (scrapeRun maxRetries (initScrapeState roster) os).dispatched with hl
  have hcount : ∀ p : String, l.count p ≤ maxRetries := by
    intro p
    exact inv_dcount_le maxRetries _ p
      (scrapeRun_inv maxRetries os (initScrapeState roster) p
        (initScrapeState_inv maxRetries roster p hmax hnodup))
  have hsub : l.toFinset ⊆ roster.toFinset := by
    intro p hp
    exact List.mem_toFinset.mpr
      (dispatched_mem_roster maxRetries roster os p (List.mem_toFinset.mp hp))
  calc l.length = ∑ a ∈ l.toFinset, l.count a := (List.sum_toFinset_count_eq_length l).symm
    _ ≤ ∑ _a ∈ l.toFinset, maxRetries := Finset.sum_le_sum (fun a _ => hcount a)
    _ = l.toFinset.card * maxRetries := by rw [Finset.sum_const, smul_eq_mul]
    _ ≤ roster.toFinset.card * maxRetries :=
        Nat.mul_le_mul_right maxRetries (Finset.card_le_card hsub)
    _ ≤ roster.length * maxRetries :=
        Nat.mul_le_mul_right maxRetries roster.toFinset_card_le
    _ = maxRetries * roster.length := Nat.mul_comm _ _

theorem scrapeStep_done (maxRetries : Nat) (st : ScrapeState) (o : FetchOutcome)
    (hm : st.mainQ = []) (hr : st.retryQ = []) : scrapeStep maxRetries st o = st := by
  unfold scrapeStep
  rw [hr, hm]

theorem scrapeRun_done (maxRetries : Nat) (os : List FetchOutcome) :
    ∀ st : ScrapeState, st.mainQ = [] → st.retryQ = [] →
      scrapeRun maxRetries st os = st := by
  induction os with
  | nil => intro st _ _; rfl
  | cons o rest ih =>
    intro st hm hr
    show scrapeRun maxRetries (scrapeStep maxRetries st o) rest = st
    rw [scrapeStep_done maxRetries st o hm hr]
    exact ih st hm hr

theorem scrapeStep_dispatched_len (maxRetries : Nat) (st : ScrapeState)
    (o : FetchOutcome) (hnd : st.mainQ ≠ [] ∨ st.retryQ ≠ []) :
    (scrapeStep maxRetries st o).dispatched.length = st.dispatched.length + 1 := by
  obtain ⟨mq, rq, pa, dp⟩ := st
  cases rq with
  | cons x rest =>
    show (dispatchFetch maxRetries ⟨mq, rest, pa, dp⟩ x o).dispatched.length = _
    rw [dispatchFetch_dispatched]
    simp
  | nil =>
    cases mq with
    | cons x rest =>
      show (dispatchFetch maxRetries ⟨rest, [], pa, dp⟩ x o).dispatched.length = _
      rw [dispatchFetch_dispatched]
      simp
    | nil =>
      rcases hnd with h | h
      · exact absurd rfl h
      · exact absurd rfl h

theorem scrapeRun_len_notdone (maxRetries : Nat) (os : List FetchOutcome) :
    ∀ st : ScrapeState,
      ((scrapeRun maxRetries st os).mainQ ≠ [] ∨ (scrapeRun maxRetries st os).retryQ ≠ []) →
      (scrapeRun maxRetries st os).dispatched.length = st.dispatched.length + os.length := by
  induction os with
  | nil => intro st _; simp [scrapeRun]
  | cons o rest ih =>
    intro st h
    have hrun : scrapeRun maxRetries st (o :: rest) =
        scrapeRun maxRetries (scrapeStep maxRetries st o) rest := rfl
    rw [hrun] at h ⊢
    have hnd : st.mainQ ≠ [] ∨ st.retryQ ≠ [] := by
      by_contra hcon
      push_neg at hcon
      have hstep : scrapeStep maxRetries st o = st := scrapeStep_done maxRetries st o hcon.1 hcon.2
      rw [hstep] at h
      rw [scrapeRun_done maxRetries rest st hcon.1 hcon.2] at h
      rcases h with h | h
      · exact h hcon.1
      · exact h hcon.2
    rw [ih (scrapeStep maxRetries st o) h, scrapeStep_dispatched_len maxRetries st o hnd]
    simp only [List.length_cons]
    omega

theorem scrapeRun_terminates (maxRetries : Nat) (roster : List String)
    (os : List FetchOutcome) (hmax : 1 ≤ maxRetries) (hnodup : roster.Nodup)
    (hlen : maxRetries * roster.length + 1 ≤ os.length) :
    (scrapeRun maxRetries (initScrapeState roster) os).mainQ = [] ∧
    (scrapeRun maxRetries (initScrapeState roster) os).retryQ = [] := by
  by_contra hcon
  have hnd : (scrapeRun maxRetries (initScrapeState roster) os).mainQ ≠ [] ∨
      (scrapeRun maxRetries (initScrapeState roster) os).retryQ ≠ [] := by
    rcases not_and_or.mp hcon with h | h
    · exact Or.inl h
    · exact Or.inr h
  have hlen1 := scrapeRun_len_notdone maxRetries os (initScrapeState roster) hnd
  have hlen2 := scrapeRun_length_le maxRetries roster os hmax hnodup
  have hinit : (initScrapeState roster).dispatched.length = 0 := rfl
  omega

/-- The item count a cache reports for one player and one item key. -/
def itemCountOf (st : PlayerCache) (player : String) (k : String) : Option Nat :=
  (get_player st player).bind (fun r => (dfind r.items (.sstr k)).map PlayerItem.count)

/-- A payload whose user owns a single occurrence of one item and
nothing else. -/
def goodPayload (itemKey : String) : JVal :=
  .jobj [("user", .jobj [
    ("Inventory", .jobj [("Items", .jarr [.jobj [("item_key", .jstr itemKey)]])]),
    ("PostOfficeItems", .jarr []),
    ("personal_vehicles", .jarr [])])]

/-- A payload whose user object is empty: it parses fine and produces
a record with no items and no vehicles. -/
def emptyUserPayload : JVal := .jobj [("user", .jobj [])]

/-- A payload that decodes as JSON but whose user field is a number:
user_data.get then raises inside the lock, after the removal phase. -/
def badUserPayload : JVal := .jobj [("user", .jnum 5)]

/-- The scenario payload of the spec: two raw occurrences of the item
pistol carrying the quantities 2 and 1, and no vehicles. -/
def alicePayload : JVal :=
  .jobj [("user", .jobj [
    ("Inventory", .jobj [("Items", .jarr [
      .jobj [("item_key", .jstr "pistol"), ("quantity", .jnum 2)],
      .jobj [("item_key", .jstr "pistol"), ("quantity", .jnum 1)]])]),
    ("PostOfficeItems", .jarr []),
    ("personal_vehicles", .jarr [])])]

/-- A payload whose user owns one vehicle with the given model hash
and nothing else. -/
def vehPayload (h : Int) : JVal :=
  .jobj [("user", .jobj [
    ("personal_vehicles", .jarr [.jobj [("ModelHash", .jnum h)]])])]

theorem vehicleKey_inj (a b : String) (h : vehicleKey a = vehicleKey b) : a = b := by
  unfold vehicleKey at h
  injection h with h1
  have hd := congrArg String.data h1
  rw [String.data_append, String.data_append] at hd
  exact String.ext (List.append_cancel_left hd)

/-- A string shorter than the vehicle namespace marker is never a
namespaced vehicle key. -/
theorem short_key_not_namespaced (k : String) (hlen : k.length < 8) :
    ∀ s : String, k ≠ "vehicle:" ++ s := by
  intro s h
  have hl := congrArg String.length h
  rw [String.length_append] at hl
  have h8 : ("vehicle:" : String).length = 8 := rfl
  omega

/-- An item key that is not vehicle-namespaced contributes exactly its
item count. -/
theorem contrib_item_key (record : PlayerData) (k : String)
    (hk : ∀ s : String, k ≠ "vehicle:" ++ s) :
    contrib record (.sstr k) = (dfind record.items (.sstr k)).map PlayerItem.count := by
  unfold contrib
  have hveh : ¬ ∃ v ∈ record.vehicles, vehicleKey v.name = JScalar.sstr k := by
    rintro ⟨v, _, hvk⟩
    unfold vehicleKey at hvk
    injection hvk with h1
    exact hk v.name h1.symm
  rw [if_neg hveh]

/-- C4, counterexample: Alice's payload holds two raw occurrences of
the item pistol carrying the quantities 2 and 1; after update_player,
the stored count is 2, not the 3 the claim states — each occurrence
contributes exactly one, the quantity fields are never read. -/
theorem c4_quantity_sum_counterexample :
    itemCountOf (update_player emptyCache "Alice" (some alicePayload) [] "t").1
      "Alice" "pistol" = some 2 ∧
    itemCountOf (update_player emptyCache "Alice" (some alicePayload) [] "t").1
      "Alice" "pistol" ≠ some 3 := by
  constructor
  · rfl
  · decide

/-- C4 (corrected): duplicate raw occurrences of one item key across
the inventory and mailbox lists accumulate into a single entry, one
unit per occurrence; for Alice's two pistol occurrences the stored
count is 2 and the update succeeds. -/
theorem c4_duplicate_occurrences_accumulate :
    (update_player emptyCache "Alice" (some alicePayload) [] "t").2 = .updated ∧
    itemCountOf (update_player emptyCache "Alice" (some alicePayload) [] "t").1
      "Alice" "pistol" = some 2 := by
  exact ⟨rfl, rfl⟩

/-- The asyncio scraper state after load_players saw the one-player
roster Bob: retry count initialized to 0, nothing processed. -/
def bobState : AsyncScrapeState := ⟨emptyCache, [], [("Bob", 0)], []⟩

/-- C5, counterexample: when Bob's fetched payload fails to decode,
process_player still returns True, marks Bob processed, leaves his
attempt counter at 0 and keeps him out of the failed list — the claim
that a malformed payload is recorded as a failure is false. -/
theorem c5_malformed_counted_as_success :
    (process_player 3 [] "t" bobState "Bob" (.ok none)).2 = true ∧
    (process_player 3 [] "t" bobState "Bob" (.ok none)).1.processed = ["Bob"] ∧
    (process_player 3 [] "t" bobState "Bob" (.ok none)).1.retry_counts = [("Bob", 0)] ∧
    failed_players_async 3 (process_player 3 [] "t" bobState "Bob" (.ok none)).1 = [] := by
  exact ⟨rfl, rfl, rfl, rfl⟩

/-- C5 (corrected): a payload that fails to decode or parse leaves the
previous primary-store records untouched, but the player is marked
processed and reported as a success; the attempt counter is not
incremented and the player does not enter the failed list. -/
theorem c5_malformed_payload_effects (maxRetries : Nat) (catalog : PyDict Int String)
    (now : String) (st : AsyncScrapeState) (player : String) (payload : Option JVal)
    (hnp : player ∉ st.processed)
    (hfail : (update_player st.cache player payload catalog now).2 ≠ .updated) :
    (process_player maxRetries catalog now st player (.ok payload)).2 = true ∧
    (process_player maxRetries catalog now st player (.ok payload)).1.processed
      = st.processed ++ [player] ∧
    (process_player maxRetries catalog now st player (.ok payload)).1.retry_counts
      = st.retry_counts ∧
    (process_player maxRetries catalog now st player (.ok payload)).1.cache.cache
      = st.cache.cache := by
  unfold process_player
  rw [if_neg hnp]
  refine ⟨rfl, rfl, rfl, ?_⟩
  have hpair : update_player st.cache player payload catalog now =
      ((update_player st.cache player payload catalog now).1,
       (update_player st.cache player payload catalog now).2) := rfl
  exact (update_player_cache_of_failed st.cache player payload catalog now
    (update_player st.cache player payload catalog now).1
    (update_player st.cache player payload catalog now).2 hpair hfail).1

/-- C5, witness: the corrected statement instantiated at Bob and an
undecodable payload. -/
theorem c5_malformed_payload_effects_witness :
    (process_player 3 [] "t" bobState "Bob" (.ok none)).1.cache.cache
      = bobState.cache.cache :=
  (c5_malformed_payload_effects 3 [] "t" bobState "Bob" none (by decide)
    (by decide)).2.2.2

/-- C6, counterexample: with an empty roster, the event trace of
scrape_all_players still ends with the save event — save_cache runs
unconditionally after the loop, contradicting the claim that nothing
is saved. -/
theorem c6_empty_roster_still_saves :
    ScrapeEvent.save ∈ (scrape_all_players 3 [] []).2 := by
  decide

/-- C6 (corrected): with an empty roster the crawl dispatches no fetch,
reports no failed players and returns at once, but the cache is still
saved: the trace is exactly the single save event. -/
theorem c6_empty_roster_behaviour (maxRetries : Nat) (os : List FetchOutcome) :
    (scrape_all_players maxRetries [] os).1.dispatched = [] ∧
    failed_players maxRetries (scrape_all_players maxRetries [] os).1 = [] ∧
    (scrape_all_players maxRetries [] os).2 = [ScrapeEvent.save] := by
  have hrun : scrapeRun maxRetries (initScrapeState []) os = initScrapeState [] :=
    scrapeRun_done maxRetries os (initScrapeState []) rfl rfl
  unfold scrape_all_players
  rw [hrun]
  exact ⟨rfl, rfl, rfl⟩

/-- C7 (confirmed): loading from a missing file yields the empty,
query-safe cache; loading a corrupt file falls back to the empty cache
with both structures empty; loading decoded data installs it and the
rebuilt index satisfies the index/primary-store invariant. -/
theorem c7_load_robustness :
    (load_cache .missing = emptyCache ∧ Consistent (load_cache .missing) ∧
      (∀ p, get_player (load_cache .missing) p = none) ∧
      (∀ n, find_users_with_item (load_cache .missing) n = []) ∧
      (∀ n, find_users_with_vehicle (load_cache .missing) n = [])) ∧
    (load_cache .corrupt = emptyCache ∧ Consistent (load_cache .corrupt)) ∧
    (∀ data : PyDict String PlayerData, (data.map Prod.fst).Nodup →
      (∀ e ∈ data, (e.2.items.map Prod.fst).Nodup) →
      (load_cache (.decoded data)).cache = data ∧
      Consistent (load_cache (.decoded data))) := by
  refine ⟨⟨rfl, consistent_empty, fun p => rfl, fun n => rfl, fun n => rfl⟩,
    ⟨rfl, consistent_empty⟩, ?_⟩
  intro data hkeys hrecords
  exact ⟨rfl, load_decoded_consistent data hkeys hrecords⟩

/-- A one-player primary store used to instantiate the load theorem. -/
def d7 : PyDict String PlayerData :=
  [("A", ⟨[(.sstr "x", ⟨.sstr "x", 2⟩)], [], "t"⟩)]

/-- C7, witness: the decoded branch instantiated at a concrete store. -/
theorem c7_load_robustness_witness : (load_cache (.decoded d7)).cache = d7 :=
  (c7_load_robustness.2.2 d7 (by decide) (by decide)).1

/-- C9 (confirmed): every record a successful update_player stores has
each item entry named after its key with a count of at least one, and
no other player record is touched. -/
theorem c9_record_wellformedness (st : PlayerCache) (player : String)
    (payload : Option JVal) (catalog : PyDict Int String) (now : String)
    (st1 : PlayerCache)
    (h : update_player st player payload catalog now = (st1, .updated)) :
    (∀ record, get_player st1 player = some record →
      ∀ k it, dfind record.items k = some it → it.name = k ∧ 1 ≤ it.count) ∧
    (∀ q, q ≠ player → get_player st1 q = get_player st q) := by
  obtain ⟨record0, hnow, hwfit, hcache, hitems, hlookup⟩ :=
    update_player_updated st player payload catalog now st1 h
  constructor
  · intro record hrec k it hit
    unfold get_player at hrec
    rw [hcache, dfind_dinsert_self] at hrec
    injection hrec with hrec
    subst hrec
    exact hwfit.2 k it hit
  · intro q hq
    unfold get_player
    rw [hcache, dfind_dinsert_ne st.cache player q record0 hq]

/-- C9, witness: the well-formedness statement instantiated at a
concrete successful update, reading back an untouched player. -/
theorem c9_record_wellformedness_witness :
    get_player (update_player emptyCache "A" (some (goodPayload "x")) [] "t").1 "B"
      = none := by
  have h := c9_record_wellformedness emptyCache "A" (some (goodPayload "x")) [] "t"
    (update_player emptyCache "A" (some (goodPayload "x")) [] "t").1 rfl
  rw [h.2 "B" (by decide)]
  rfl

theorem mapM_vehicle_entries (catalog : PyDict Int String) :
    ∀ entries : List (List (String × JVal)),
      (∀ e ∈ entries, (toKey ((dfind e "ModelHash").getD .jnull)).isSome) →
      (entries.map JVal.jobj).mapM (fun v => do
          let h ← pyGetD v "ModelHash" .jnull
          let name ← catalogName catalog h
          pure (PlayerVehicle.mk h name)) =
        .ok (entries.map (fun e =>
          PlayerVehicle.mk ((dfind e "ModelHash").getD .jnull)
            (resolveName catalog
              ((toKey ((dfind e "ModelHash").getD .jnull)).getD .snull)))) := by
  intro entries
  induction entries with
  | nil => intro _; rfl
  | cons e rest ih =>
    intro hhash
    obtain ⟨k, hk⟩ := Option.isSome_iff_exists.mp
      (hhash e (List.mem_cons_self e rest))
    have hrest := ih (fun e2 he2 => hhash e2 (List.mem_cons_of_mem e he2))
    simp only [List.map_cons, List.mapM_cons]
    have hstep : pyGetD (JVal.jobj e) "ModelHash" .jnull =
        .ok ((dfind e "ModelHash").getD .jnull) := rfl
    have hname : catalogName catalog ((dfind e "ModelHash").getD .jnull) =
        .ok (resolveName catalog k) := by
      unfold catalogName
      rw [hk]
    simp only [hstep, hname, hk, Bind.bind, Except.bind, pure, Except.pure,
      Option.getD_some] at hrest ⊢
    rw [hrest]

/-- C10, counterexample: a raw entry whose ModelHash is a list makes
the catalog lookup hash an unhashable key; the whole parse raises
instead of producing one output per entry, so the claimed totality is
false of the program. -/
theorem c10_unhashable_hash_counterexample :
    parse_vehicles (.jarr [.jobj [("ModelHash", .jarr [])]]) [] = .error () := by
  rfl

/-- C10 (corrected): for raw object entries whose ModelHash values are
hashable, parse_vehicles maps every entry to exactly one output
vehicle, in order; an entry with no ModelHash field keeps the null
hash and resolves to the fallback display name, since a null hash
never matches the integer-keyed catalog. -/
theorem c10_parse_vehicles_total (entries : List (List (String × JVal)))
    (catalog : PyDict Int String)
    (hhash : ∀ e ∈ entries, (toKey ((dfind e "ModelHash").getD .jnull)).isSome) :
    parse_vehicles (.jarr (entries.map JVal.jobj)) catalog =
      .ok (entries.map (fun e =>
        PlayerVehicle.mk ((dfind e "ModelHash").getD .jnull)
          (resolveName catalog
            ((toKey ((dfind e "ModelHash").getD .jnull)).getD .snull)))) ∧
    resolveName catalog .snull = "Unknown Vehicle" := by
  constructor
  · have h := mapM_vehicle_entries catalog entries hhash
    unfold parse_vehicles
    exact h
  · rfl

/-- C10, witness: one entry with an integer hash missing from the
catalog and one entry with no ModelHash field at all. -/
theorem c10_parse_vehicles_total_witness :
    parse_vehicles (.jarr [.jobj [("ModelHash", .jnum 5)], .jobj []]) [] =
      .ok [⟨.jnum 5, "Unknown Vehicle"⟩, ⟨.jnull, "Unknown Vehicle"⟩] :=
  (c10_parse_vehicles_total [[("ModelHash", .jnum 5)], []] [] (by decide)).1.trans rfl

/-- The cache after one successful upsert: P owns one unit of x. -/
def cacheWithX : PlayerCache :=
  (update_player emptyCache "P" (some (goodPayload "x")) [] "t1").1

/-- C2, counterexample: re-upserting P with a payload that decodes but
whose user field is malformed ends as a parse failure that has already
removed P from the index entry of x while leaving the old record in
the primary store — the two structures are left inconsistent, which
the claim says cannot happen. -/
theorem c2_atomicity_counterexample :
    (update_player cacheWithX "P" (some badUserPayload) [] "t2").2 = .parseFailed ∧
    get_player (update_player cacheWithX "P" (some badUserPayload) [] "t2").1 "P"
      = some ⟨[(.sstr "x", ⟨.sstr "x", 1⟩)], [], "t1"⟩ ∧
    lget cacheWithX.lookup_cache (.sstr "x") "P" = some 1 ∧
    lget (update_player cacheWithX "P" (some badUserPayload) [] "t2").1.lookup_cache
      (.sstr "x") "P" = none := by
  exact ⟨rfl, rfl, rfl, rfl⟩

/-- C2 (corrected): a call that fails while decoding leaves the whole
state untouched, and a successful call replaces the player record in
full and keeps the index consistent; but a payload whose user data is
malformed after decoding fails only after the removal phase, leaving
the primary store intact while the old index contributions of the
player are already gone. -/
theorem c2_upsert_atomicity (st : PlayerCache) (player : String) (payload : Option JVal)
    (catalog : PyDict Int String) (now : String) (st1 : PlayerCache) (res : UpdateResult)
    (h : update_player st player payload catalog now = (st1, res)) :
    (res = .decodeFailed → st1 = st) ∧
    (res = .parseFailed → st1.cache = st.cache ∧ st1 = removeLookup st player) ∧
    (res = .updated → WFLookup st → Consistent st →
      (∃ record, get_player st1 player = some record ∧ record.last_updated = now) ∧
      (∀ q, q ≠ player → get_player st1 q = get_player st q) ∧
      Consistent st1) := by
  refine ⟨?_, ?_, ?_⟩
  · intro hres
    subst hres
    exact update_player_decode_failed st player payload catalog now st1 h
  · intro hres
    subst hres
    have h2 := update_player_parse_failed st player payload catalog now st1 h
    refine ⟨?_, h2⟩
    rw [h2]
    exact removeLookup_cache st player
  · intro hres hwf hcons
    subst hres
    obtain ⟨record, hnow, hwfit, hcache, hitems, hlookup⟩ :=
      update_player_updated st player payload catalog now st1 h
    refine ⟨⟨record, ?_, hnow⟩, ?_,
      (update_player_preserves st player payload catalog now st1 hwf hcons h).1⟩
    · unfold get_player
      rw [hcache, dfind_dinsert_self]
    · intro q hq
      unfold get_player
      rw [hcache, dfind_dinsert_ne st.cache player q record hq]

/-- C2, witness: the decode-failure branch at a concrete input. -/
theorem c2_upsert_atomicity_witness :
    (update_player emptyCache "P" none [] "t").1 = emptyCache := by
  have h := c2_upsert_atomicity emptyCache "P" none [] "t"
    (update_player emptyCache "P" none [] "t").1
    (update_player emptyCache "P" none [] "t").2 rfl
  exact h.1 rfl

/-- C8 (confirmed): a model hash with no catalog entry resolves to the
fallback name Unknown Vehicle instead of failing the record, and after
the upsert the player is found by find_users_with_vehicle under the
fallback name. -/
theorem c8_unknown_vehicle_fallback (st : PlayerCache) (player : String)
    (catalog : PyDict Int String) (h : Int) (now : String)
    (hcat : dfind catalog h = none) :
    catalogName catalog (.jnum h) = .ok "Unknown Vehicle" ∧
    (update_player st player (some (vehPayload h)) catalog now).2 = .updated ∧
    (∃ record, get_player (update_player st player (some (vehPayload h)) catalog now).1 player
        = some record ∧ record.vehicles = [⟨.jnum h, "Unknown Vehicle"⟩]) ∧
    player ∈ find_users_with_vehicle
      (update_player st player (some (vehPayload h)) catalog now).1 "Unknown Vehicle" := by
  have hname : resolveName catalog (.snum h) = "Unknown Vehicle" := by
    show (dfind catalog h).getD "Unknown Vehicle" = _
    rw [hcat]
    rfl
  have hupd : update_player st player (some (vehPayload h)) catalog now =
      ({ cache := dinsert player
            (⟨[], [⟨.jnum h, resolveName catalog (.snum h)⟩], now⟩ : PlayerData)
            (removeLookup st player).cache,
         lookup_cache := insertLookup (removeLookup st player).lookup_cache player
            ⟨[], [⟨.jnum h, resolveName catalog (.snum h)⟩], now⟩,
         items := (removeLookup st player).items }, .updated) := rfl
  refine ⟨?_, ?_, ?_, ?_⟩
  · show Except.ok (resolveName catalog (.snum h)) = _
    rw [hname]
  · rw [hupd]
  · refine ⟨⟨[], [⟨.jnum h, "Unknown Vehicle"⟩], now⟩, ?_, rfl⟩
    unfold get_player
    rw [hupd]
    show dfind (dinsert player
        (⟨[], [⟨.jnum h, resolveName catalog (.snum h)⟩], now⟩ : PlayerData)
        (removeLookup st player).cache) player = _
    rw [dfind_dinsert_self, hname]
  · have hcontrib : contrib ⟨[], [⟨.jnum h, resolveName catalog (.snum h)⟩], now⟩
        (vehicleKey "Unknown Vehicle") = some 1 := by
      unfold contrib
      rw [if_pos ⟨⟨.jnum h, resolveName catalog (.snum h)⟩, List.mem_singleton.mpr rfl,
        by rw [hname]⟩]
    have hl := lget_insertLookup (removeLookup st player).lookup_cache player
      ⟨[], [⟨.jnum h, resolveName catalog (.snum h)⟩], now⟩ List.nodup_nil
      (vehicleKey "Unknown Vehicle") player
    rw [if_pos rfl, hcontrib] at hl
    rw [hupd]
    unfold find_users_with_vehicle
    unfold lget at hl
    cases hdf : dfind (insertLookup (removeLookup st player).lookup_cache player
        (⟨[], [⟨.jnum h, resolveName catalog (.snum h)⟩], now⟩ : PlayerData))
        (vehicleKey "Unknown Vehicle") with
    | none =>
      rw [hdf] at hl
      simp at hl
    | some inner =>
      rw [hdf] at hl
      simp only [Option.some_bind] at hl
      simp only [Option.getD_some]
      exact (dfind_isSome_iff_mem inner player).mp (by simp [hl])

/-- C8, witness: the unknown hash 999 against an empty catalog. -/
theorem c8_unknown_vehicle_fallback_witness :
    "P" ∈ find_users_with_vehicle
      (update_player emptyCache "P" (some (vehPayload 999)) [] "t").1 "Unknown Vehicle" :=
  (c8_unknown_vehicle_fallback emptyCache "P" [] 999 "t" rfl).2.2.2

/-- The cache after one successful upsert: Q owns one unit of y. -/
def cacheWithY : PlayerCache :=
  (update_player emptyCache "Q" (some (goodPayload "y")) [] "t1").1

/-- The state after a second update_player call for Q whose payload
decodes but carries a malformed user field. -/
def c1BrokenState : PlayerCache :=
  (update_player cacheWithY "Q" (some badUserPayload) [] "t2").1

/-- C1, counterexample: after the sequence of two update_player calls
behind c1BrokenState, the record of Q still holds the item y with
count 1, yet the index entry for y no longer holds Q — the claimed
equivalence fails for a sequence containing a failing call. -/
theorem c1_stale_record_counterexample :
    itemCountOf c1BrokenState "Q" "y" = some 1 ∧
    lget c1BrokenState.lookup_cache (.sstr "y") "Q" = none := by
  exact ⟨rfl, rfl⟩

/-- C1 (corrected): after any sequence of successful update_player
calls from a consistent state, a player without a record has no index
entries; for a player with a record, every item key outside the
vehicle namespace is indexed with exactly the stored count iff it is
in the record, every owned vehicle name is indexed with quantity 1,
the vehicle-name equivalence holds whenever no item key collides with
the namespaced vehicle key, and a player whose record lost an item is
absent from the find_users_with_item result for it. -/
theorem c1_index_primary_equivalence (catalog : PyDict Int String) (st0 : PlayerCache)
    (ops : List UpdateOp) (hwf : WFLookup st0) (hcons : Consistent st0)
    (hsucc : AllSucceed catalog st0 ops) :
    (∀ (p : String) (k : JScalar), get_player (applyAll catalog st0 ops) p = none →
        lget (applyAll catalog st0 ops).lookup_cache k p = none) ∧
    (∀ p record, get_player (applyAll catalog st0 ops) p = some record →
      (∀ k : String, (∀ s : String, k ≠ "vehicle:" ++ s) →
          lget (applyAll catalog st0 ops).lookup_cache (.sstr k) p
            = (dfind record.items (.sstr k)).map PlayerItem.count) ∧
      (∀ v : String, (∃ veh ∈ record.vehicles, veh.name = v) →
          lget (applyAll catalog st0 ops).lookup_cache (vehicleKey v) p = some 1) ∧
      (∀ v : String, dfind record.items (vehicleKey v) = none →
          (lget (applyAll catalog st0 ops).lookup_cache (vehicleKey v) p = some 1 ↔
            ∃ veh ∈ record.vehicles, veh.name = v)) ∧
      (∀ name id, dfind (applyAll catalog st0 ops).items name = some id → id ≠ "" →
          (∀ s : String, id ≠ "vehicle:" ++ s) →
          dfind record.items (.sstr id) = none →
          p ∉ (find_users_with_item (applyAll catalog st0 ops) name).map Prod.fst)) := by
  have hconsF : Consistent (applyAll catalog st0 ops) :=
    (applyAll_preserves catalog ops st0 hwf hcons hsucc).1
  constructor
  · intro p k hget
    have hc := hconsF k p
    unfold playerContrib at hc
    unfold get_player at hget
    rw [hget, Option.none_bind] at hc
    exact hc
  · intro p record hget
    unfold get_player at hget
    have hcontr : ∀ k, lget (applyAll catalog st0 ops).lookup_cache k p = contrib record k := by
      intro k
      have hc := hconsF k p
      unfold playerContrib at hc
      rw [hget, Option.some_bind] at hc
      exact hc
    refine ⟨?_, ?_, ?_, ?_⟩
    · intro k hk
      rw [hcontr (.sstr k), contrib_item_key record k hk]
    · intro v hv
      rw [hcontr (vehicleKey v)]
      unfold contrib
      obtain ⟨veh, hmem, hvname⟩ := hv
      rw [if_pos ⟨veh, hmem, by rw [hvname]⟩]
    · intro v hnone
      rw [hcontr (vehicleKey v)]
      unfold contrib
      by_cases hveh : ∃ w ∈ record.vehicles, vehicleKey w.name = vehicleKey v
      · rw [if_pos hveh]
        obtain ⟨w, hw, hwk⟩ := hveh
        simp only [true_iff]
        exact ⟨w, hw, vehicleKey_inj w.name v hwk⟩
      · rw [if_neg hveh, hnone]
        simp only [Option.map_none']
        constructor
        · intro hcontra
          exact absurd hcontra (by simp)
        · rintro ⟨w, hw, hwname⟩
          exact absurd ⟨w, hw, by rw [hwname]⟩ hveh
    · intro name id hid hne hnn hnone hmem
      unfold find_users_with_item at hmem
      rw [hid] at hmem
      dsimp only at hmem
      rw [if_neg hne] at hmem
      cases hdf : dfind (applyAll catalog st0 ops).lookup_cache (.sstr id) with
      | none =>
        rw [hdf] at hmem
        simp at hmem
      | some inner =>
        rw [hdf] at hmem
        simp only [Option.getD_some] at hmem
        have hlg := hcontr (.sstr id)
        rw [contrib_item_key record id hnn, hnone] at hlg
        unfold lget at hlg
        rw [hdf, Option.some_bind] at hlg
        simp only [Option.map_none'] at hlg
        have hsome := (dfind_isSome_iff_mem inner p).mpr hmem
        rw [hlg] at hsome
        simp at hsome

/-- The two successful update operations of the re-upsert scenario:
Alice first owns a pistol, then is re-upserted with an empty user. -/
def c1ops : List UpdateOp :=
  [⟨"Alice", some (goodPayload "pistol"), "t1"⟩,
   ⟨"Alice", some emptyUserPayload, "t2"⟩]

/-- C1, witness: after re-upserting Alice without the pistol, the
index entry for the pistol no longer holds Alice. -/
theorem c1_index_primary_equivalence_witness :
    lget (applyAll [] emptyCache c1ops).lookup_cache (.sstr "pistol") "Alice" = none := by
  have h := c1_index_primary_equivalence [] emptyCache c1ops wflookup_empty
    consistent_empty ⟨rfl, rfl, trivial⟩
  have h2 := (h.2 "Alice" ⟨[], [], "t2"⟩ rfl).1 "pistol"
    (short_key_not_namespaced "pistol" (by decide))
  rw [h2]
  rfl

/-- C3 (confirmed): over any finite roster without duplicate names and
any stream of fetch outcomes, no player is dispatched more than
max_retries times, the total number of dispatched fetches is at most
max_retries times the roster size, and once the outcome stream is long
enough both queues are empty — the crawl terminates with every player
either processed or terminally dropped. -/
theorem c3_crawl_termination_and_bounds (maxRetries : Nat) (roster : List String)
    (os : List FetchOutcome) (hmax : 1 ≤ maxRetries) (hnodup : roster.Nodup) :
    (∀ p, (scrapeRun maxRetries (initScrapeState roster) os).dispatched.count p
        ≤ maxRetries) ∧
    (scrapeRun maxRetries (initScrapeState roster) os).dispatched.length
      ≤ maxRetries * roster.length ∧
    (maxRetries * roster.length + 1 ≤ os.length →
      (scrapeRun maxRetries (initScrapeState roster) os).mainQ = [] ∧
      (scrapeRun maxRetries (initScrapeState roster) os).retryQ = []) := by
  refine ⟨?_, scrapeRun_length_le maxRetries roster os hmax hnodup, ?_⟩
  · intro p
    exact inv_dcount_le maxRetries _ p
      (scrapeRun_inv maxRetries os (initScrapeState roster) p
        (initScrapeState_inv maxRetries roster p hmax hnodup))
  · intro hlen
    exact scrapeRun_terminates maxRetries roster os hmax hnodup hlen

/-- C3, witness: two players, retry budget 3, seven outcomes. -/
theorem c3_crawl_termination_and_bounds_witness :
    (scrapeRun 3 (initScrapeState ["A", "B"])
        (List.replicate 7 FetchOutcome.failure)).mainQ = [] ∧
    (scrapeRun 3 (initScrapeState ["A", "B"])
        (List.replicate 7 FetchOutcome.failure)).retryQ = [] :=
  (c3_crawl_termination_and_bounds 3 ["A", "B"] (List.replicate 7 FetchOutcome.failure)
    (by decide) (by decide)).2.2 (by decide)

end UcpLiberty
